import Mathlib

/-!
# Retrieval-and-synthesis pipeline of `pages/api/query.js`

A shallow embedding of `searchDocuments` and `generateAnswer`.

* JavaScript strings are sequences of UTF-16 code units, so a string is a list of
  natural numbers and `length`, `slice`, `substring` count code units.
* `String.prototype.toLowerCase` is a runtime builtin whose case tables are not part of
  the repository: every definition takes it as the argument `toLowerCase`.  The concrete
  `asciiToLowerCase` is used when a definition is evaluated.
* `new RegExp(word, 'g')` is embedded for the patterns made of ordinary characters and
  the wildcard `.`; patterns that the ECMAScript grammar certainly rejects raise
  `RegExpError.syntaxError`, everything else is reported as `RegExpError.unsupported`.
  The search and the handler are also embedded over an arbitrary engine
  (`searchDocumentsWith`, `handlerWith`), and what does not depend on how matches are
  counted is proved for every engine.
* Numbers are IEEE doubles.  Counts are exact naturals; the confidence arithmetic is
  carried out on doubles written `num / 2 ^ scale`, every operation rounding its exact
  result to 53 significant bits, ties to even.
* `async` functions are embedded as the functions they compute; a thrown exception is an
  `Except.error`.
-/

namespace DocQA

/-! ## Strings -/

/-- A UTF-16 code unit. -/
abbrev CodeUnit := Nat

/-- A JavaScript string: its sequence of code units. -/
abbrev JSString := List CodeUnit

/-- The code units of a string literal of the source (all literals used are ASCII). -/
def ofString (s : String) : JSString := s.toList.map Char.toNat

/-- Case mapping restricted to the letters `A`..`Z`; stands in for the builtin when a
definition is evaluated on ASCII text. -/
def asciiToLowerCase (s : JSString) : JSString :=
  s.map (fun c => if 65 ≤ c ∧ c ≤ 90 then c + 32 else c)

/-- The class `\s` of a regular expression, which is also what `trim` strips:
WhiteSpace and LineTerminator code points. -/
def isWhiteSpace (c : CodeUnit) : Bool :=
  c == 9 || c == 10 || c == 11 || c == 12 || c == 13 || c == 32 || c == 160 ||
  c == 5760 || (8192 ≤ c && c ≤ 8202) || c == 8232 || c == 8233 || c == 8239 ||
  c == 8287 || c == 12288 || c == 65279

/-- The class `[.!?]` used to cut the content into sentences. -/
def isSentenceDelimiter (c : CodeUnit) : Bool :=
  c == 46 || c == 33 || c == 63

/-- The call `s.split(/[class]+/)`: cut `s` at every maximal run of separator code units.
The flag records that the previous code unit was a separator, so that a run cuts once.
The head of the result is the piece under construction. -/
def splitRuns (isSep : CodeUnit → Bool) : JSString → Bool → List JSString
  | [], _ => [[]]
  | c :: cs, inRun =>
    if isSep c then
      if inRun then splitRuns isSep cs true else [] :: splitRuns isSep cs true
    else
      match splitRuns isSep cs false with
      | [] => [[c]]
      | piece :: pieces => (c :: piece) :: pieces

/-- The call `s.split(/\s+/)`. -/
def splitWhitespace (s : JSString) : List JSString := splitRuns isWhiteSpace s false

/-- The call `s.split(/[.!?]+/)`. -/
def splitSentences (s : JSString) : List JSString := splitRuns isSentenceDelimiter s false

/-- The call `s.trim()`. -/
def trim (s : JSString) : JSString :=
  ((s.dropWhile isWhiteSpace).reverse.dropWhile isWhiteSpace).reverse

/-- Whether `word` is an initial segment of `s`. -/
def startsWith : JSString → JSString → Bool
  | _, [] => true
  | [], _ :: _ => false
  | c :: cs, w :: ws => c == w && startsWith cs ws

/-- The call `s.includes(word)`: `word` occurs in `s` as a contiguous run. -/
def includes : JSString → JSString → Bool
  | [], word => startsWith [] word
  | c :: cs, word => startsWith (c :: cs) word || includes cs word

/-! ## Regular expressions built from a query word -/

/-- One element of a compiled pattern. -/
inductive Atom where
  | char (c : CodeUnit)
  | dot
  deriving DecidableEq, Repr

/-- Why `new RegExp(word, 'g')` gave no usable pattern here. -/
inductive RegExpError where
  /-- The constructor throws a `SyntaxError`. -/
  | syntaxError
  /-- The pattern is valid or invalid ECMAScript that this embedding does not interpret. -/
  | unsupported
  deriving DecidableEq, Repr

instance instDecidableEqExcept {ε α : Type} [DecidableEq ε] [DecidableEq α] :
    DecidableEq (Except ε α)
  | .ok a, .ok b => if h : a = b then isTrue (by rw [h]) else isFalse (by simp [h])
  | .error a, .error b => if h : a = b then isTrue (by rw [h]) else isFalse (by simp [h])
  | .ok _, .error _ => isFalse (by simp)
  | .error _, .ok _ => isFalse (by simp)

/-- The code units `^ $ \ . * + ? ( ) [ ] { } |`. -/
def isSyntaxCharacter (c : CodeUnit) : Bool :=
  c == 94 || c == 36 || c == 92 || c == 46 || c == 42 || c == 43 || c == 63 ||
  c == 40 || c == 41 || c == 91 || c == 93 || c == 123 || c == 125 || c == 124

/-- The code units `\n`, `\r`, U+2028, U+2029, which `.` does not match. -/
def isLineTerminator (c : CodeUnit) : Bool :=
  c == 10 || c == 13 || c == 8232 || c == 8233

/-- Number of backslashes at the end of the pattern. -/
def trailingBackslashes (pattern : JSString) : Nat :=
  (pattern.reverse.takeWhile (fun c => c == 92)).length

/-- Patterns every ECMAScript parser rejects:
a quantifier `*`, `+`, `?` with nothing before it;
a final unescaped backslash;
a `[` with no `]` and no backslash anywhere;
a `(` with no `)`, or a `)` with no `(`, and neither backslash nor `[` anywhere. -/
def definitelyInvalid (pattern : JSString) : Bool :=
  (match pattern with
    | [] => false
    | c :: _ => c == 42 || c == 43 || c == 63) ||
  trailingBackslashes pattern % 2 == 1 ||
  (pattern.contains 91 && !pattern.contains 93 && !pattern.contains 92) ||
  (pattern.contains 40 && !pattern.contains 41 && !pattern.contains 92 &&
    !pattern.contains 91) ||
  (pattern.contains 41 && !pattern.contains 40 && !pattern.contains 92 &&
    !pattern.contains 91)

/-- Compile a pattern made of ordinary characters and `.`. -/
def compileAtoms : JSString → Option (List Atom)
  | [] => some []
  | c :: cs =>
    if c == 46 then (compileAtoms cs).map (Atom.dot :: ·)
    else if isSyntaxCharacter c then none
    else (compileAtoms cs).map (Atom.char c :: ·)

/-- The constructor call `new RegExp(word, 'g')`. -/
def newRegExp (word : JSString) : Except RegExpError (List Atom) :=
  if definitelyInvalid word then .error .syntaxError
  else match compileAtoms word with
    | some atoms => .ok atoms
    | none => .error .unsupported

/-- Whether one atom accepts one code unit. -/
def Atom.accepts : Atom → CodeUnit → Bool
  | .char c, d => c == d
  | .dot, d => !isLineTerminator d

/-- Whether the pattern matches at the start of the text. -/
def matchesAt : List Atom → JSString → Bool
  | [], _ => true
  | _ :: _, [] => false
  | a :: atoms, c :: cs => a.accepts c && matchesAt atoms cs

/-- Length of `content.match(regexp)` for a global pattern (0 when the result is `null`):
scan from the left; after a match the search resumes behind it, and behind an empty
match one code unit further on.  `skip` counts the code units still covered by the last
match. -/
def matchCount (atoms : List Atom) : Nat → JSString → Nat
  | skip, [] => if skip == 0 && matchesAt atoms [] then 1 else 0
  | 0, c :: cs =>
    if matchesAt atoms (c :: cs) then 1 + matchCount atoms (atoms.length - 1) cs
    else matchCount atoms 0 cs
  | skip + 1, _ :: cs => matchCount atoms skip cs

/-- The expression `(content.match(new RegExp(word, 'g')) || []).length`. -/
def countMatches (word content : JSString) : Except RegExpError Nat :=
  match newRegExp word with
  | .ok atoms => .ok (matchCount atoms 0 content)
  | .error e => .error e

/-! ## Documents and search -/

/-- A stored document (the fields the query path and the delete path read). -/
structure Document where
  id : JSString
  title : JSString
  content : JSString
  fileType : JSString
  deriving DecidableEq, Repr

/-- One element of `scoredDocuments`. -/
structure ScoredDocument where
  document : Document
  score : Nat
  relevantPassages : List JSString
  deriving DecidableEq, Repr

/-- The tokens `query.toLowerCase().split(/\s+/)`. -/
def queryWords (toLowerCase : JSString → JSString) (query : JSString) : List JSString :=
  splitWhitespace (toLowerCase query)

/-- The loop `queryWords.forEach(word => score += matches)` started at `score`. -/
def scoreLoop (content : JSString) : List JSString → Nat → Except RegExpError Nat
  | [], score => .ok score
  | word :: words, score =>
    match countMatches word content with
    | .ok n => scoreLoop content words (score + n)
    | .error e => .error e

/-- The score of one document: the loop run from 0 on the lower-cased content. -/
def score (toLowerCase : JSString → JSString) (words : List JSString) (doc : Document) :
    Except RegExpError Nat :=
  scoreLoop (toLowerCase doc.content) words 0

/-- The predicate of the first `filter`: some query word occurs in the sentence. -/
def isRelevant (toLowerCase : JSString → JSString) (words : List JSString)
    (sentence : JSString) : Bool :=
  words.any (fun word => includes (toLowerCase sentence) (toLowerCase word))

/-- The chain `sentences.filter(..).slice(0, 3).map(trim).filter(length > 10)`. -/
def relevantPassages (toLowerCase : JSString → JSString) (words : List JSString)
    (doc : Document) : List JSString :=
  ((((splitSentences doc.content).filter (isRelevant toLowerCase words)).take 3).map
    trim).filter (fun passage => decide (passage.length > 10))

/-- The callback of `documents.map`. -/
def scoreDocument (toLowerCase : JSString → JSString) (words : List JSString)
    (doc : Document) : Except RegExpError ScoredDocument :=
  match score toLowerCase words doc with
  | .ok s => .ok ⟨doc, s, relevantPassages toLowerCase words doc⟩
  | .error e => .error e

/-- The array `scoredDocuments`; the first exception aborts the map. -/
def scoredDocuments (toLowerCase : JSString → JSString) (words : List JSString) :
    List Document → Except RegExpError (List ScoredDocument)
  | [] => .ok []
  | doc :: docs =>
    match scoreDocument toLowerCase words doc with
    | .ok sd =>
      match scoredDocuments toLowerCase words docs with
      | .ok sds => .ok (sd :: sds)
      | .error e => .error e
    | .error e => .error e

/-- The comparator `(a, b) => b.score - a.score`. -/
def compareFn (a b : ScoredDocument) : Int := (b.score : Int) - (a.score : Int)

/-- The order the comparator induces: `a` may stand before `b`. -/
def notAfter (a b : ScoredDocument) : Prop := compareFn a b ≤ 0

instance : DecidableRel notAfter := fun a b => inferInstanceAs (Decidable (compareFn a b ≤ 0))

/-- The call `Array.prototype.sort(compareFn)`, a stable sort: an element is inserted in
front of the first element it may stand before. -/
def sort (items : List ScoredDocument) : List ScoredDocument :=
  items.insertionSort notAfter

/-- The chain `.filter(item => item.score > 0).sort(..).slice(0, 5)`. -/
def rank (items : List ScoredDocument) : List ScoredDocument :=
  (sort (items.filter (fun item => decide (item.score > 0)))).take 5

/-- The function `searchDocuments(query, documents)`. -/
def searchDocuments (toLowerCase : JSString → JSString) (query : JSString)
    (documents : List Document) : Except RegExpError (List ScoredDocument) :=
  match scoredDocuments toLowerCase (queryWords toLowerCase query) documents with
  | .ok items => .ok (rank items)
  | .error e => .error e

/-! ## Doubles

The confidence is computed in IEEE double arithmetic.  A non-negative finite double is
written `num / 2 ^ scale`; each operation computes the exact result and rounds its
numerator to 53 significant bits, ties to even.  Exponent range limits (overflow,
subnormals) are never reached by the values below and are not modelled.
-/

/-- Number of low-order bits of `m` beyond its 53 leading ones (`fuel` bounds the count). -/
def excessBits : Nat → Nat → Nat
  | 0, _ => 0
  | fuel + 1, m => if m < 2 ^ 53 then 0 else excessBits fuel (m / 2) + 1

/-- Round a natural number to 53 significant bits, ties to even. -/
def roundSig (m : Nat) : Nat :=
  if m < 2 ^ 53 then m
  else
    let d := excessBits m m
    let q := m / 2 ^ d
    let r := m % 2 ^ d
    let half := 2 ^ (d - 1)
    if r < half then q * 2 ^ d
    else if half < r then (q + 1) * 2 ^ d
    else if q % 2 = 0 then q * 2 ^ d
    else (q + 1) * 2 ^ d

/-- A non-negative finite double, with value `num / 2 ^ scale`. -/
structure Double where
  num : Nat
  scale : Nat
  deriving DecidableEq, Repr

namespace Double

/-- Rounding of an exact result to the nearest double. -/
def round (x : Double) : Double := ⟨roundSig x.num, x.scale⟩

/-- Conversion of an integer such as an array length. -/
def ofNat (n : Nat) : Double := round ⟨n, 0⟩

/-- The product `x * y`. -/
def mul (x y : Double) : Double := round ⟨x.num * y.num, x.scale + y.scale⟩

/-- The sum `x + y`. -/
def add (x y : Double) : Double :=
  round ⟨x.num * 2 ^ y.scale + y.num * 2 ^ x.scale, x.scale + y.scale⟩

/-- The comparison `x ≤ y`. -/
def le (x y : Double) : Bool := decide (x.num * 2 ^ y.scale ≤ y.num * 2 ^ x.scale)

/-- The call `Math.min(x, y)`. -/
def min (x y : Double) : Double := if le x y then x else y

/-- The call `Math.round(x)`: the integer nearest to `x`, halves going up. -/
def mathRound (x : Double) : Nat := (2 * x.num + 2 ^ x.scale) / 2 ^ (x.scale + 1)

/-- The literal `0.2`, that is `0x3FC999999999999A`. -/
def lit_0_2 : Double := ⟨3602879701896397, 54⟩

/-- The literal `0.1`, that is `0x3FB999999999999A`. -/
def lit_0_1 : Double := ⟨3602879701896397, 55⟩

end Double

/-! ## Answer synthesis -/

/-- One element of `sources`. -/
structure Source where
  title : JSString
  fileType : JSString
  relevance : Nat
  passage : JSString
  deriving DecidableEq, Repr

/-- The object returned by `generateAnswer`. -/
structure Answer where
  text : JSString
  sources : List Source
  confidence : Nat
  deriving DecidableEq, Repr

/-- The array `allPassages`: `flatMap` of the passages, then `slice(0, 10)`. -/
def allPassages (searchResults : List ScoredDocument) : List JSString :=
  ((searchResults.map (fun result => result.relevantPassages)).flatten).take 10

/-- The object pushed onto `sources` for a result whose first passage is `passage`. -/
def makeSource (result : ScoredDocument) (passage : JSString) : Source :=
  ⟨result.document.title, result.document.fileType, result.score,
    passage.take 200 ++ ofString "..."⟩

/-- The body of `searchResults.slice(0, 3).forEach(..)`, run over the given results with
the current values of `answer` and `sources`. -/
def appendBlocks : List ScoredDocument → JSString × List Source → JSString × List Source
  | [], state => state
  | result :: results, (answer, sources) =>
    match result.relevantPassages with
    | [] => appendBlocks results (answer, sources)
    | passage :: _ =>
      appendBlocks results
        (answer ++ (ofString "From \"" ++ result.document.title ++ ofString "\":\n")
          ++ (passage ++ ofString "\n\n"),
         sources ++ [makeSource result passage])

/-- The value of `confidence` before `Math.round`:
`Math.min((length * 0.2 + passages * 0.1) * 100, 95)`. -/
def confidenceValue (results passages : Nat) : Double :=
  Double.min
    (Double.mul
      (Double.add (Double.mul (Double.ofNat results) Double.lit_0_2)
        (Double.mul (Double.ofNat passages) Double.lit_0_1))
      (Double.ofNat 100))
    (Double.ofNat 95)

/-- The fixed answer text for an empty result list. -/
def notFoundText : JSString :=
  ofString "I couldn't find relevant information in the uploaded documents to answer your question."

/-- The templated answer text when no passage was collected. -/
def noPassagesText (n : Nat) : JSString :=
  ofString "I found " ++ ofString (toString n) ++
    ofString " relevant document(s) but couldn't extract specific passages that directly answer your question. The documents contain information related to your query, but may require more specific questions to get detailed answers."

/-- The opening line of a composed answer. -/
def basedOnText : JSString :=
  ofString "Based on the uploaded documents, here's what I found:\n\n"

/-- The function `generateAnswer(question, searchResults)`. -/
def generateAnswer (_question : JSString) (searchResults : List ScoredDocument) : Answer :=
  if searchResults.length = 0 then
    ⟨notFoundText, [], 0⟩
  else
    let passages := allPassages searchResults
    let built : JSString × List Source :=
      if passages.length = 0 then (noPassagesText searchResults.length, [])
      else appendBlocks (searchResults.take 3) (basedOnText, [])
    ⟨trim built.1, built.2,
      Double.mathRound (confidenceValue searchResults.length passages.length)⟩

/-! ## What the specification says, for comparison -/

/-- Number of non-overlapping occurrences of a literal `word` in `content`, counted from
the left; `skip` counts the code units still covered by the last occurrence. -/
def countOccurrences (word : JSString) : Nat → JSString → Nat
  | _, [] => 0
  | 0, c :: cs =>
    if startsWith (c :: cs) word then 1 + countOccurrences word (word.length - 1) cs
    else countOccurrences word 0 cs
  | skip + 1, _ :: cs => countOccurrences word skip cs

/-- The score of the specification: the sum over the tokens of the literal occurrence
counts in the lower-cased content. -/
def specScore (toLowerCase : JSString → JSString) (words : List JSString) (doc : Document) :
    Nat :=
  (words.map (fun word => countOccurrences word 0 (toLowerCase doc.content))).sum

/-- The passages of the specification: relevant sentences in document order, each trimmed,
the short ones discarded, and then the first 3 survivors. -/
def specPassages (toLowerCase : JSString → JSString) (words : List JSString)
    (doc : Document) : List JSString :=
  ((((splitSentences doc.content).filter (isRelevant toLowerCase words)).map trim).filter
    (fun passage => decide (11 ≤ passage.length))).take 3

/-- A word made of ordinary characters only: none of `^ $ \ . * + ? ( ) [ ] { } |`. -/
def isPlain (word : JSString) : Bool := word.all (fun c => !isSyntaxCharacter c)

/-- A document with the given title and content. -/
def textDocument (title content : String) : Document :=
  ⟨ofString title, ofString title, ofString content, ofString "markdown"⟩

/-- The test `result.relevantPassages.length > 0` of the answer loop. -/
def hasPassage (result : ScoredDocument) : Bool :=
  decide (result.relevantPassages.length > 0)

/-- A store of four documents with scores 0, 1, 2, 1 for the question `cat`. -/
def storeWithTie : List Document :=
  [textDocument "A" "dog", textDocument "B" "cat", textDocument "C" "cat cat",
    textDocument "D" "a cat"]

/-- The ranked list of `storeWithTie` for the question `cat`. -/
def rankedWithTie : List ScoredDocument :=
  [⟨textDocument "C" "cat cat", 2, []⟩, ⟨textDocument "B" "cat", 1, []⟩,
    ⟨textDocument "D" "a cat", 1, []⟩]

/-- A store of four documents: for the question `cat` the first one scores highest and
has no passage, the other three have one passage each. -/
def storeFirstWithoutPassage : List Document :=
  [textDocument "D1" "cat cat", textDocument "D2" "The cat sat on the mat",
    textDocument "D3" "A cat is on the roof", textDocument "D4" "My cat likes fish a lot"]

/-- The ranked list of `storeFirstWithoutPassage` for the question `cat`. -/
def rankedFirstWithoutPassage : List ScoredDocument :=
  [⟨textDocument "D1" "cat cat", 2, []⟩,
    ⟨textDocument "D2" "The cat sat on the mat", 1, [ofString "The cat sat on the mat"]⟩,
    ⟨textDocument "D3" "A cat is on the roof", 1, [ofString "A cat is on the roof"]⟩,
    ⟨textDocument "D4" "My cat likes fish a lot", 1, [ofString "My cat likes fish a lot"]⟩]

/-- A store of four documents: for the question `cat` the first three score highest and
have no passage, the fourth has one. -/
def storeOnlyFourthWithPassage : List Document :=
  [textDocument "D1" "cat cat", textDocument "D2" "cat cat", textDocument "D3" "cat cat",
    textDocument "D4" "The cat sat on the mat"]

/-- The ranked list of `storeOnlyFourthWithPassage` for the question `cat`. -/
def rankedOnlyFourthWithPassage : List ScoredDocument :=
  [⟨textDocument "D1" "cat cat", 2, []⟩, ⟨textDocument "D2" "cat cat", 2, []⟩,
    ⟨textDocument "D3" "cat cat", 2, []⟩,
    ⟨textDocument "D4" "The cat sat on the mat", 1, [ofString "The cat sat on the mat"]⟩]

/-! ## The request handlers -/

/-- A value the property `question` of a parsed request body can hold. -/
inductive JSValue where
  | undefined
  | null
  | boolean (b : Bool)
  /-- A number; only whether it is zero matters below, so integers stand for all. -/
  | number (n : Int)
  | string (s : JSString)
  /-- An object or an array. -/
  | object
  deriving DecidableEq, Repr

/-- Truthiness, as tested by `!question`. -/
def JSValue.truthy : JSValue → Bool
  | .undefined => false
  | .null => false
  | .boolean b => b
  | .number n => n != 0
  | .string s => !s.isEmpty
  | .object => true

/-- The test `typeof question === 'string'`. -/
def JSValue.isString : JSValue → Bool
  | .string _ => true
  | _ => false

/-- The code units of a value that is a string (empty for any other value). -/
def JSValue.stringValue : JSValue → JSString
  | .string s => s
  | _ => []

/-- A request to `pages/api/query.js`: the method and the parsed body.  The body is
`none` when `req.body` is `null` or `undefined`, and otherwise `some question` with the
value of its property `question` (`undefined` when the property is absent). -/
structure QueryRequest where
  method : JSString
  body : Option JSValue
  deriving DecidableEq, Repr

/-- The JSON body of a response. -/
inductive ResponseBody where
  | error (message : JSString)
  | answer (answer : JSString) (sources : List Source) (confidence : Nat)
      (timestamp : JSString)
  | deleted (message : JSString) (id : JSString) (title : JSString)
  deriving DecidableEq, Repr

/-- A response: `res.status(status).json(body)`. -/
structure Response where
  status : Nat
  body : ResponseBody
  deriving DecidableEq, Repr

/-- The default export of `pages/api/query.js`, run on the store `documents`; `now` is the
value of `new Date().toISOString()`.  Destructuring a missing body and a `SyntaxError` of
the `RegExp` constructor are exceptions, which the `catch` block turns into status 500.
The result is `none` when a query word is a pattern outside this embedding. -/
def handler (toLowerCase : JSString → JSString) (now : JSString) (documents : List Document)
    (req : QueryRequest) : Option Response :=
  if req.method ≠ ofString "POST" then
    some ⟨405, .error (ofString "Method not allowed")⟩
  else
    match req.body with
    | none => some ⟨500, .error (ofString "Failed to process query")⟩
    | some question =>
      if !question.truthy || !question.isString then
        some ⟨400, .error (ofString "Question is required")⟩
      else if documents.length = 0 then
        some ⟨400, .error (ofString "No documents uploaded. Please upload documents first.")⟩
      else
        match searchDocuments toLowerCase question.stringValue documents with
        | .ok results =>
          let answer := generateAnswer question.stringValue results
          some ⟨200, .answer answer.text answer.sources answer.confidence now⟩
        | .error .syntaxError => some ⟨500, .error (ofString "Failed to process query")⟩
        | .error .unsupported => none

/-- A request to `pages/api/upload/documents/[id].js`: the method and `req.query.id`. -/
structure DeleteRequest where
  method : JSString
  id : JSString
  deriving DecidableEq, Repr

/-- The search of `Array.prototype.findIndex`, counting positions from `index`. -/
def findIndexFrom (p : Document → Bool) : List Document → Nat → Int
  | [], _ => -1
  | doc :: docs, index => if p doc then (index : Int) else findIndexFrom p docs (index + 1)

/-- The call `documents.findIndex(p)`: the first position whose document satisfies `p`,
or -1. -/
def findIndex (p : Document → Bool) (documents : List Document) : Int :=
  findIndexFrom p documents 0

/-- The call `documents.splice(start, deleteCount)`: the removed elements and the array
left behind. -/
def splice (documents : List Document) (start deleteCount : Nat) :
    List Document × List Document :=
  ((documents.drop start).take deleteCount,
    documents.take start ++ documents.drop (start + deleteCount))

/-- The default export of `pages/api/upload/documents/[id].js`: the response and the
store after the call. -/
def deleteHandler (documents : List Document) (req : DeleteRequest) :
    Response × List Document :=
  if req.method ≠ ofString "DELETE" then
    (⟨405, .error (ofString "Method not allowed")⟩, documents)
  else
    let documentIndex := findIndex (fun doc => decide (doc.id = req.id)) documents
    if documentIndex = -1 then
      (⟨404, .error (ofString "Document not found")⟩, documents)
    else
      match splice documents documentIndex.toNat 1 with
      | (deletedDocument :: _, remaining) =>
        (⟨200, .deleted (ofString "Document deleted successfully") deletedDocument.id
          deletedDocument.title⟩, remaining)
      | ([], remaining) =>
        (⟨500, .error (ofString "Failed to delete document")⟩, remaining)

/-- The block of the answer text for one ranked document: the line `From "<title>":` and,
on the next line, the first passage. -/
def answerBlock (result : ScoredDocument) : JSString :=
  ofString "From \"" ++ result.document.title ++ ofString "\":\n" ++
    result.relevantPassages.headD []

/-- The store of one document of scenarios B and C. -/
def storeDoc1 : List Document :=
  [textDocument "Doc1" "The cat sat on the mat. Dogs bark loudly."]

/-- The ranked list of `storeDoc1` for the question `cat`. -/
def rankedDoc1 : List ScoredDocument :=
  [⟨textDocument "Doc1" "The cat sat on the mat. Dogs bark loudly.", 1,
    [ofString "The cat sat on the mat"]⟩]

/-- A lower-case letter `a`..`z` or a digit `0`..`9`. -/
def isLowerAlnumUnit (c : CodeUnit) : Bool :=
  (97 ≤ c && c ≤ 122) || (48 ≤ c && c ≤ 57)

/-- A token made of lower-case letters and digits only. -/
def isLowerAlnum (word : JSString) : Bool := word.all isLowerAlnumUnit

/-- The string holds `n` occurrences of `word`, one behind the other without overlap. -/
def HasOccurrences (word : JSString) : Nat → JSString → Prop
  | 0, _ => True
  | n + 1, s => ∃ gap rest, s = gap ++ word ++ rest ∧ HasOccurrences word n rest

/-- A document with three sentences that contain the token `cat`. -/
def documentThreeCats : Document :=
  textDocument "Cats"
    "The cat sat on the mat. Dogs bark loudly! My cat likes fish? A cat is on the roof."

/-- Two strings of the same length that agree at every position where either holds a
lower-case letter or a digit. -/
def SimilarText (x y : JSString) : Prop :=
  List.Forall₂ (fun u v => u = v ∨ (isLowerAlnumUnit u = false ∧ isLowerAlnumUnit v = false))
    x y

/-! ## The search with the regular-expression engine as a parameter

The embedding `countMatches` interprets the patterns made of ordinary characters and `.`.
What the ranking, the answer and the handlers do does not depend on how matches are
counted, so the search is also embedded over an arbitrary engine: `count word content` is
the value of `(content.match(new RegExp(word, 'g')) || []).length`, or the exception the
constructor throws.  `searchDocuments` and `handler` are the instances at `countMatches`.
-/

/-- A regular-expression engine, as far as the search uses it: the number of matches of
the pattern `word` in `content`, or the exception thrown. -/
abbrev MatchCounter := JSString → JSString → Except RegExpError Nat

/-- The loop `queryWords.forEach(word => score += matches)` started at `score`. -/
def scoreLoopWith (count : MatchCounter) (content : JSString) :
    List JSString → Nat → Except RegExpError Nat
  | [], score => .ok score
  | word :: words, score =>
    match count word content with
    | .ok n => scoreLoopWith count content words (score + n)
    | .error e => .error e

/-- The score of one document: the loop run from 0 on the lower-cased content. -/
def scoreWith (count : MatchCounter) (toLowerCase : JSString → JSString)
    (words : List JSString) (doc : Document) : Except RegExpError Nat :=
  scoreLoopWith count (toLowerCase doc.content) words 0

/-- The callback of `documents.map`. -/
def scoreDocumentWith (count : MatchCounter) (toLowerCase : JSString → JSString)
    (words : List JSString) (doc : Document) : Except RegExpError ScoredDocument :=
  match scoreWith count toLowerCase words doc with
  | .ok s => .ok ⟨doc, s, relevantPassages toLowerCase words doc⟩
  | .error e => .error e

/-- The array `scoredDocuments`; the first exception aborts the map. -/
def scoredDocumentsWith (count : MatchCounter) (toLowerCase : JSString → JSString)
    (words : List JSString) : List Document → Except RegExpError (List ScoredDocument)
  | [] => .ok []
  | doc :: docs =>
    match scoreDocumentWith count toLowerCase words doc with
    | .ok sd =>
      match scoredDocumentsWith count toLowerCase words docs with
      | .ok sds => .ok (sd :: sds)
      | .error e => .error e
    | .error e => .error e

/-- The function `searchDocuments(query, documents)`. -/
def searchDocumentsWith (count : MatchCounter) (toLowerCase : JSString → JSString)
    (query : JSString) (documents : List Document) :
    Except RegExpError (List ScoredDocument) :=
  match scoredDocumentsWith count toLowerCase (queryWords toLowerCase query) documents with
  | .ok items => .ok (rank items)
  | .error e => .error e

/-- The default export of `pages/api/query.js`, run on the store `documents`; `now` is the
value of `new Date().toISOString()`.  Exceptions are turned into status 500 by the
`catch` block; the result is `none` when the engine reports a pattern it does not
interpret. -/
def handlerWith (count : MatchCounter) (toLowerCase : JSString → JSString) (now : JSString)
    (documents : List Document) (req : QueryRequest) : Option Response :=
  if req.method ≠ ofString "POST" then
    some ⟨405, .error (ofString "Method not allowed")⟩
  else
    match req.body with
    | none => some ⟨500, .error (ofString "Failed to process query")⟩
    | some question =>
      if !question.truthy || !question.isString then
        some ⟨400, .error (ofString "Question is required")⟩
      else if documents.length = 0 then
        some ⟨400, .error (ofString "No documents uploaded. Please upload documents first.")⟩
      else
        match searchDocumentsWith count toLowerCase question.stringValue documents with
        | .ok results =>
          let answer := generateAnswer question.stringValue results
          some ⟨200, .answer answer.text answer.sources answer.confidence now⟩
        | .error .syntaxError => some ⟨500, .error (ofString "Failed to process query")⟩
        | .error .unsupported => none

/-- Number of matches of a global pattern made of the ordinary characters `stem`
followed by the optional character `last` (the pattern `stem last ?`): the scan from the
left matches wherever `stem` starts, taking `last` with it when it follows; `skip` counts
the code units still covered by the last match. -/
def optionalCount (stem : JSString) (last : CodeUnit) : Nat → JSString → Nat
  | _, [] => 0
  | 0, c :: cs =>
    if startsWith (c :: cs) stem then
      if startsWith (c :: cs) (stem ++ [last]) then
        1 + optionalCount stem last stem.length cs
      else 1 + optionalCount stem last (stem.length - 1) cs
    else optionalCount stem last 0 cs
  | skip + 1, _ :: cs => optionalCount stem last skip cs

/-- An engine that interprets, besides the patterns of `countMatches`, a word of ordinary
characters followed by one `?`: the last character is optional, so every occurrence of
the word without its last character is a match (for a word of at least two characters).
It serves to evaluate questions that end in a question mark. -/
def countMatchesOptional (word content : JSString) : Except RegExpError Nat :=
  match word.reverse with
  | 63 :: last :: init =>
    if (last :: init).all (fun c => !isSyntaxCharacter c) && !init.isEmpty then
      .ok (optionalCount init.reverse last 0 content)
    else countMatches word content
  | _ => countMatches word content

/-- A question that ends in a question mark and matches nothing in `storeDoc1`. -/
def questionXylophone : JSString := ofString "xylophone?"

/-- The store `storeFirstWithoutPassage` after the delete of `D2`. -/
def storeAfterDelete : List Document :=
  [textDocument "D1" "cat cat", textDocument "D3" "A cat is on the roof",
    textDocument "D4" "My cat likes fish a lot"]

/-- The ranked list of `storeAfterDelete` for the question `a cat?`. -/
def rankedAfterDelete : List ScoredDocument :=
  [⟨textDocument "D1" "cat cat", 4, []⟩,
    ⟨textDocument "D3" "A cat is on the roof", 3, [ofString "A cat is on the roof"]⟩,
    ⟨textDocument "D4" "My cat likes fish a lot", 3, [ofString "My cat likes fish a lot"]⟩]

/-! ## Strings: auxiliary facts -/

theorem startsWith_iff (s word : JSString) : startsWith s word = true ↔ word <+: s := by
  induction s generalizing word with
  | nil =>
    cases word with
    | nil => simp [startsWith]
    | cons w ws => simp [startsWith]
  | cons c cs ih =>
    cases word with
    | nil => simp [startsWith]
    | cons w ws =>
      simp only [startsWith, Bool.and_eq_true, beq_iff_eq, ih, List.cons_prefix_cons]
      constructor
      · rintro ⟨h1, h2⟩
        exact ⟨h1.symm, h2⟩
      · rintro ⟨h1, h2⟩
        exact ⟨h1.symm, h2⟩

theorem includes_iff (s word : JSString) : includes s word = true ↔ word <:+: s := by
  induction s with
  | nil =>
    simp only [includes, startsWith_iff]
    constructor
    · intro h
      exact h.isInfix
    · intro h
      have := List.eq_nil_of_infix_nil h
      subst this
      exact List.prefix_refl _
  | cons c cs ih =>
    simp only [includes, Bool.or_eq_true, startsWith_iff, ih, List.infix_cons_iff]

theorem splitRuns_no_separator (isSep : CodeUnit → Bool) (s : JSString) (inRun : Bool) :
    ∀ piece ∈ splitRuns isSep s inRun, ∀ c ∈ piece, isSep c = false := by
  induction s generalizing inRun with
  | nil =>
    intro piece hp c hc
    simp [splitRuns] at hp
    subst hp
    simp at hc
  | cons x xs ih =>
    intro piece hp c hc
    unfold splitRuns at hp
    by_cases hx : isSep x = true
    · simp only [hx, if_true] at hp
      cases inRun with
      | true =>
        simp only [if_true] at hp
        exact ih true piece hp c hc
      | false =>
        simp only [Bool.false_eq_true, if_false, List.mem_cons] at hp
        rcases hp with hp | hp
        · subst hp
          simp at hc
        · exact ih true piece hp c hc
    · have hx' : isSep x = false := by simpa using hx
      simp only [hx', Bool.false_eq_true, if_false] at hp
      have ih' := ih false
      cases hsplit : splitRuns isSep xs false with
      | nil =>
        rw [hsplit] at hp
        simp only [List.mem_singleton] at hp
        subst hp
        simp only [List.mem_singleton] at hc
        subst hc
        exact hx'
      | cons q qs =>
        rw [hsplit] at hp ih'
        simp only [List.mem_cons] at hp
        rcases hp with hp | hp
        · subst hp
          simp only [List.mem_cons] at hc
          rcases hc with hc | hc
          · subst hc
            exact hx'
          · exact ih' q (List.mem_cons_self _ _) c hc
        · exact ih' piece (List.mem_cons_of_mem _ hp) c hc

/-- Every piece of a split is a contiguous part of the string; the piece under
construction starts the string unless a separator run is being skipped. -/
theorem splitRuns_pieces (isSep : CodeUnit → Bool) (s : JSString) :
    ∀ inRun : Bool, ∃ piece pieces, splitRuns isSep s inRun = piece :: pieces ∧
      (inRun = false → piece <+: s) ∧ piece <:+: s ∧ ∀ x ∈ pieces, x <:+: s := by
  induction s with
  | nil =>
    intro inRun
    exact ⟨[], [], rfl, fun _ => List.prefix_refl _, List.infix_refl _, by simp⟩
  | cons c cs ih =>
    intro inRun
    unfold splitRuns
    by_cases hc : isSep c = true
    · obtain ⟨piece, pieces, hsplit, _, hpiece, hpieces⟩ := ih true
      rw [if_pos hc]
      cases inRun with
      | true =>
        rw [if_pos rfl, hsplit]
        exact ⟨piece, pieces, rfl, fun hb => absurd hb (by decide),
          hpiece.trans (List.suffix_cons c cs).isInfix,
          fun x hx => (hpieces x hx).trans (List.suffix_cons c cs).isInfix⟩
      | false =>
        rw [if_neg (by decide), hsplit]
        refine ⟨[], piece :: pieces, rfl, fun _ => List.nil_prefix, List.nil_infix, ?_⟩
        intro x hx
        rw [List.mem_cons] at hx
        rcases hx with hx | hx
        · subst hx
          exact hpiece.trans (List.suffix_cons c cs).isInfix
        · exact (hpieces x hx).trans (List.suffix_cons c cs).isInfix
    · obtain ⟨piece, pieces, hsplit, hstart, _, hpieces⟩ := ih false
      rw [if_neg hc, hsplit]
      have hprefix : c :: piece <+: c :: cs :=
        List.cons_prefix_cons.mpr ⟨rfl, hstart rfl⟩
      exact ⟨c :: piece, pieces, rfl, fun _ => hprefix, hprefix.isInfix,
        fun x hx => (hpieces x hx).trans (List.suffix_cons c cs).isInfix⟩

theorem splitRuns_contiguous (isSep : CodeUnit → Bool) (s : JSString) (inRun : Bool) :
    ∀ piece ∈ splitRuns isSep s inRun, piece <:+: s := by
  intro x hx
  obtain ⟨piece, pieces, hsplit, _, hpiece, hpieces⟩ := splitRuns_pieces isSep s inRun
  rw [hsplit, List.mem_cons] at hx
  rcases hx with hx | hx
  · subst hx
    exact hpiece
  · exact hpieces x hx

theorem trim_contiguous (s : JSString) : trim s <:+: s := by
  unfold trim
  have h1 : ((s.dropWhile isWhiteSpace).reverse.dropWhile isWhiteSpace).reverse <+:
      s.dropWhile isWhiteSpace := by
    have := List.dropWhile_suffix isWhiteSpace (l := (s.dropWhile isWhiteSpace).reverse)
    rw [← List.reverse_prefix, List.reverse_reverse] at this
    exact this
  exact h1.isInfix.trans (List.dropWhile_suffix isWhiteSpace).isInfix

theorem mem_of_mem_trim (s : JSString) : ∀ c ∈ trim s, c ∈ s :=
  fun _ hc => (trim_contiguous s).subset hc

/-! ## Scoring and ranking: auxiliary facts -/

theorem notAfter_iff (a b : ScoredDocument) : notAfter a b ↔ b.score ≤ a.score := by
  unfold notAfter compareFn
  omega

theorem notAfter_total : IsTotal ScoredDocument notAfter :=
  ⟨fun a b => by
    rcases Nat.le_total a.score b.score with h | h
    · exact Or.inr ((notAfter_iff b a).mpr h)
    · exact Or.inl ((notAfter_iff a b).mpr h)⟩

theorem notAfter_trans : IsTrans ScoredDocument notAfter :=
  ⟨fun a b c hab hbc => by
    rw [notAfter_iff] at *
    exact Nat.le_trans hbc hab⟩

theorem sort_perm (items : List ScoredDocument) : (sort items).Perm items :=
  List.perm_insertionSort notAfter items

theorem sort_pairwise (items : List ScoredDocument) :
    (sort items).Pairwise (fun a b => b.score ≤ a.score) := by
  haveI := notAfter_total
  haveI := notAfter_trans
  have h : (sort items).Pairwise notAfter := List.sorted_insertionSort notAfter items
  exact h.imp (fun {a b} hab => (notAfter_iff a b).mp hab)

/-- Stability: the elements of any one score keep their relative order. -/
theorem sort_stable (items : List ScoredDocument) (k : Nat) :
    (sort items).filter (fun item => decide (item.score = k)) =
      items.filter (fun item => decide (item.score = k)) := by
  have hpw : (items.filter (fun item => decide (item.score = k))).Pairwise notAfter := by
    rw [List.pairwise_iff_forall_sublist]
    intro a b hab
    have ha : a ∈ items.filter (fun item => decide (item.score = k)) :=
      hab.subset (by simp)
    have hb : b ∈ items.filter (fun item => decide (item.score = k)) :=
      hab.subset (by simp)
    simp only [List.mem_filter, decide_eq_true_eq] at ha hb
    rw [notAfter_iff, ha.2, hb.2]
  have hsub : List.Sublist (items.filter (fun item => decide (item.score = k))) (sort items) :=
    List.sublist_insertionSort hpw (List.filter_sublist items)
  have hsub2 := hsub.filter (fun item => decide (item.score = k))
  rw [List.filter_filter] at hsub2
  simp only [Bool.and_self] at hsub2
  have hlen : ((sort items).filter (fun item => decide (item.score = k))).length =
      (items.filter (fun item => decide (item.score = k))).length :=
    ((sort_perm items).filter _).length_eq
  exact (hsub2.eq_of_length hlen.symm).symm

/-- What a successful `scoredDocuments` holds: one item per document, in store order,
with that document's score and passages. -/
theorem scoredDocuments_ok (toLowerCase : JSString → JSString) (words : List JSString) :
    ∀ (documents : List Document) (items : List ScoredDocument),
      scoredDocuments toLowerCase words documents = .ok items →
      List.Forall₂ (fun doc item => item.document = doc ∧
        score toLowerCase words doc = .ok item.score ∧
        item.relevantPassages = relevantPassages toLowerCase words doc) documents items := by
  intro documents
  induction documents with
  | nil =>
    intro items h
    simp only [scoredDocuments, Except.ok.injEq] at h
    subst h
    exact List.Forall₂.nil
  | cons doc docs ih =>
    intro items h
    unfold scoredDocuments scoreDocument at h
    cases hs : score toLowerCase words doc with
    | error e => simp [hs] at h
    | ok s =>
      cases hrest : scoredDocuments toLowerCase words docs with
      | error e => simp [hs, hrest] at h
      | ok rest =>
        simp only [hs, hrest, Except.ok.injEq] at h
        subst h
        exact List.Forall₂.cons ⟨rfl, hs, rfl⟩ (ih rest hrest)

theorem exists_document_of_mem {R : Document → ScoredDocument → Prop} :
    ∀ {documents : List Document} {items : List ScoredDocument},
      List.Forall₂ R documents items → ∀ {item : ScoredDocument}, item ∈ items →
      ∃ doc, doc ∈ documents ∧ R doc item := by
  intro documents items h
  induction h with
  | nil =>
    intro item hitem
    simp at hitem
  | cons hhead _ ih =>
    intro item hitem
    rw [List.mem_cons] at hitem
    rcases hitem with hitem | hitem
    · subst hitem
      exact ⟨_, List.mem_cons_self _ _, hhead⟩
    · obtain ⟨doc, hdoc, hR⟩ := ih hitem
      exact ⟨doc, List.mem_cons_of_mem _ hdoc, hR⟩

theorem mem_rank {items : List ScoredDocument} {r : ScoredDocument} (h : r ∈ rank items) :
    r ∈ items ∧ 0 < r.score := by
  unfold rank at h
  have h1 := (List.take_sublist 5 _).subset h
  have h2 := (sort_perm _).subset h1
  simpa using h2

/-! ## Plain words are matched literally -/

theorem not_mem_of_plain {word : JSString} (h : isPlain word = true) (c : CodeUnit)
    (hc : isSyntaxCharacter c = true) : c ∉ word := by
  intro hmem
  unfold isPlain at h
  rw [List.all_eq_true] at h
  have := h c hmem
  simp [hc] at this

theorem contains_plain {word : JSString} (h : isPlain word = true) (c : CodeUnit)
    (hc : isSyntaxCharacter c = true) : word.contains c = false := by
  have := not_mem_of_plain h c hc
  simpa using this

theorem trailingBackslashes_plain {word : JSString} (h : isPlain word = true) :
    trailingBackslashes word = 0 := by
  unfold trailingBackslashes
  rw [List.length_eq_zero, List.eq_nil_iff_forall_not_mem]
  intro c hc
  have h1 : (c == 92) = true :=
    List.mem_takeWhile_imp (p := fun c => c == 92) (l := word.reverse) hc
  have h2 : c = 92 := by simpa using h1
  have h3 : c ∈ word.reverse := (List.takeWhile_prefix _).subset hc
  rw [List.mem_reverse] at h3
  subst h2
  exact not_mem_of_plain h 92 (by decide) h3

theorem definitelyInvalid_plain {word : JSString} (h : isPlain word = true) :
    definitelyInvalid word = false := by
  unfold definitelyInvalid
  rw [trailingBackslashes_plain h, contains_plain h 91 (by decide),
    contains_plain h 40 (by decide), contains_plain h 41 (by decide)]
  cases word with
  | nil => simp
  | cons c cs =>
    have h42 := not_mem_of_plain h 42 (by decide)
    have h43 := not_mem_of_plain h 43 (by decide)
    have h63 := not_mem_of_plain h 63 (by decide)
    simp only [List.mem_cons, not_or] at h42 h43 h63
    have e42 : (c == 42) = false := by simpa using fun hh => h42.1 hh.symm
    have e43 : (c == 43) = false := by simpa using fun hh => h43.1 hh.symm
    have e63 : (c == 63) = false := by simpa using fun hh => h63.1 hh.symm
    simp [e42, e43, e63]

theorem compileAtoms_plain {word : JSString} (h : isPlain word = true) :
    compileAtoms word = some (word.map Atom.char) := by
  induction word with
  | nil => rfl
  | cons c cs ih =>
    have hc : isSyntaxCharacter c = false := by
      unfold isPlain at h
      simp only [List.all_cons, Bool.and_eq_true, Bool.not_eq_true'] at h
      exact h.1
    have hcs : isPlain cs = true := by
      unfold isPlain at h ⊢
      simp only [List.all_cons, Bool.and_eq_true] at h
      exact h.2
    have h46 : (c == 46) = false := by
      cases hd : (c == 46) with
      | false => rfl
      | true =>
        have : c = 46 := by simpa using hd
        subst this
        simp [isSyntaxCharacter] at hc
    simp [compileAtoms, h46, hc, ih hcs]

theorem newRegExp_plain {word : JSString} (h : isPlain word = true) :
    newRegExp word = .ok (word.map Atom.char) := by
  unfold newRegExp
  rw [definitelyInvalid_plain h, compileAtoms_plain h]
  simp

theorem matchesAt_char (word s : JSString) :
    matchesAt (word.map Atom.char) s = startsWith s word := by
  induction word generalizing s with
  | nil => cases s <;> simp [matchesAt, startsWith]
  | cons w ws ih =>
    cases s with
    | nil => simp [matchesAt, startsWith]
    | cons c cs =>
      simp only [List.map_cons, matchesAt, startsWith, Atom.accepts, ih]
      rw [Bool.beq_comm]

theorem matchCount_char (word : JSString) (hne : word ≠ []) (s : JSString) :
    ∀ skip, matchCount (word.map Atom.char) skip s = countOccurrences word skip s := by
  induction s with
  | nil =>
    intro skip
    cases word with
    | nil => exact absurd rfl hne
    | cons w ws => simp [matchCount, countOccurrences, matchesAt]
  | cons c cs ih =>
    intro skip
    cases skip with
    | zero =>
      simp only [matchCount, countOccurrences, matchesAt_char, List.length_map, ih]
    | succ k =>
      simp only [matchCount, countOccurrences, ih]

theorem countMatches_plain {word : JSString} (h : isPlain word = true) (hne : word ≠ [])
    (content : JSString) :
    countMatches word content = .ok (countOccurrences word 0 content) := by
  unfold countMatches
  rw [newRegExp_plain h]
  simp [matchCount_char word hne]

theorem scoreLoop_ok (content : JSString) :
    ∀ (words : List JSString) (start : Nat),
      (∀ word ∈ words, isPlain word = true) →
      ∃ total, scoreLoop content words start = .ok total := by
  intro words
  induction words with
  | nil =>
    intro start _
    exact ⟨start, rfl⟩
  | cons w ws ih =>
    intro start h
    unfold scoreLoop countMatches
    rw [newRegExp_plain (h w (List.mem_cons_self _ _))]
    exact ih _ (fun x hx => h x (List.mem_cons_of_mem _ hx))

theorem scoreLoop_plain (content : JSString) :
    ∀ (words : List JSString) (start : Nat),
      (∀ word ∈ words, isPlain word = true ∧ word ≠ []) →
      scoreLoop content words start =
        .ok (start + (words.map (fun word => countOccurrences word 0 content)).sum) := by
  intro words
  induction words with
  | nil =>
    intro start _
    simp [scoreLoop]
  | cons w ws ih =>
    intro start h
    have hw := h w (List.mem_cons_self _ _)
    unfold scoreLoop
    rw [countMatches_plain hw.1 hw.2]
    simp only [List.map_cons, List.sum_cons]
    rw [ih _ (fun x hx => h x (List.mem_cons_of_mem _ hx)), Nat.add_assoc]

/-- For words made of ordinary characters the code computes the score of the
specification. -/
theorem score_plain (toLowerCase : JSString → JSString) (words : List JSString)
    (doc : Document) (h : ∀ word ∈ words, isPlain word = true ∧ word ≠ []) :
    score toLowerCase words doc = .ok (specScore toLowerCase words doc) := by
  unfold score specScore
  rw [scoreLoop_plain _ words 0 h, Nat.zero_add]

/-- The search returns a ranked list whenever every query word is made of ordinary
characters. -/
theorem searchDocuments_ok (toLowerCase : JSString → JSString) (query : JSString)
    (documents : List Document)
    (h : ∀ word ∈ queryWords toLowerCase query, isPlain word = true) :
    ∃ results, searchDocuments toLowerCase query documents = .ok results := by
  have hall : ∀ docs : List Document, ∃ items,
      scoredDocuments toLowerCase (queryWords toLowerCase query) docs = .ok items := by
    intro docs
    induction docs with
    | nil => exact ⟨[], rfl⟩
    | cons d ds ih =>
      obtain ⟨rest, hrest⟩ := ih
      obtain ⟨total, htotal⟩ := scoreLoop_ok (toLowerCase d.content) _ 0 h
      refine ⟨⟨d, total, relevantPassages toLowerCase (queryWords toLowerCase query) d⟩
        :: rest, ?_⟩
      unfold scoredDocuments scoreDocument score
      rw [htotal, hrest]
  obtain ⟨items, hitems⟩ := hall documents
  exact ⟨rank items, by unfold searchDocuments; rw [hitems]⟩

/-! ## Claims on scoring, ranking and passages -/

/-- C1, evaluated at the failing input: for the question `a.b` and a document whose
content is `axb` the code gives the score 1, because the `.` of the word is read as a
wildcard, and the document is ranked; the content holds no occurrence of the three
characters `a`, `.`, `b`, so the score of the specification is 0. -/
theorem score_reads_word_as_pattern :
    score asciiToLowerCase (queryWords asciiToLowerCase (ofString "a.b"))
        (textDocument "Doc1" "axb") = .ok 1 ∧
      specScore asciiToLowerCase (queryWords asciiToLowerCase (ofString "a.b"))
        (textDocument "Doc1" "axb") = 0 ∧
      searchDocuments asciiToLowerCase (ofString "a.b") [textDocument "Doc1" "axb"] =
        .ok [⟨textDocument "Doc1" "axb", 1, []⟩] := by
  decide

/-- C3: for every document and every token sequence `relevantPassages` has at most 3
elements and each has at least 11 code units; so has the `relevantPassages` of every
entry of a list returned by `searchDocuments`. -/
theorem relevantPassages_bounds (toLowerCase : JSString → JSString) :
    (∀ (words : List JSString) (doc : Document),
      (relevantPassages toLowerCase words doc).length ≤ 3 ∧
      ∀ passage ∈ relevantPassages toLowerCase words doc, 11 ≤ passage.length) ∧
    (∀ (query : JSString) (documents : List Document) (results : List ScoredDocument),
      searchDocuments toLowerCase query documents = .ok results →
      ∀ r ∈ results, r.relevantPassages.length ≤ 3 ∧
        ∀ passage ∈ r.relevantPassages, 11 ≤ passage.length) := by
  have hfun : ∀ (words : List JSString) (doc : Document),
      (relevantPassages toLowerCase words doc).length ≤ 3 ∧
      ∀ passage ∈ relevantPassages toLowerCase words doc, 11 ≤ passage.length := by
    intro words doc
    unfold relevantPassages
    constructor
    · refine Nat.le_trans (List.length_filter_le _ _) ?_
      rw [List.length_map, List.length_take]
      exact Nat.min_le_left _ _
    · intro passage hp
      rw [List.mem_filter] at hp
      have := hp.2
      simp only [gt_iff_lt, decide_eq_true_eq] at this
      omega
  refine ⟨hfun, ?_⟩
  intro query documents results h r hr
  unfold searchDocuments at h
  cases hitems : scoredDocuments toLowerCase (queryWords toLowerCase query) documents with
  | error e => simp [hitems] at h
  | ok items =>
    simp only [hitems, Except.ok.injEq] at h
    rw [← h] at hr
    have hmem := (mem_rank hr).1
    have hspec := scoredDocuments_ok toLowerCase _ documents items hitems
    obtain ⟨doc, _, hdoc⟩ := exists_document_of_mem hspec hmem
    rw [hdoc.2.2]
    exact hfun _ doc

/-- C3 at a concrete store: the one passage of `Doc1` for the question `cat`. -/
theorem relevantPassages_bounds_witness :
    searchDocuments asciiToLowerCase (ofString "cat")
        [textDocument "Doc1" "The cat sat on the mat. Dogs bark loudly."] =
      .ok [⟨textDocument "Doc1" "The cat sat on the mat. Dogs bark loudly.", 1,
        [ofString "The cat sat on the mat"]⟩] ∧
    ∀ r ∈ [(⟨textDocument "Doc1" "The cat sat on the mat. Dogs bark loudly.", 1,
        [ofString "The cat sat on the mat"]⟩ : ScoredDocument)],
      r.relevantPassages.length ≤ 3 ∧ ∀ passage ∈ r.relevantPassages, 11 ≤ passage.length :=
  ⟨by decide,
    (relevantPassages_bounds asciiToLowerCase).2 (ofString "cat")
      [textDocument "Doc1" "The cat sat on the mat. Dogs bark loudly."] _ (by decide)⟩

/-- C4 as stated fails: for the content `cat. cat. cat. The cat sat on the mat.` and the
token `cat` the code returns no passage, while discarding the short sentences before
capping at 3 gives the passage `The cat sat on the mat`. -/
theorem relevantPassages_caps_before_discarding :
    relevantPassages asciiToLowerCase (queryWords asciiToLowerCase (ofString "cat"))
        (textDocument "Doc1" "cat. cat. cat. The cat sat on the mat.") = [] ∧
      specPassages asciiToLowerCase (queryWords asciiToLowerCase (ofString "cat"))
        (textDocument "Doc1" "cat. cat. cat. The cat sat on the mat.") =
        [ofString "The cat sat on the mat"] ∧
      relevantPassages asciiToLowerCase (queryWords asciiToLowerCase (ofString "cat"))
        (textDocument "Doc1" "cat. cat. cat. The cat sat on the mat.") ≠
      specPassages asciiToLowerCase (queryWords asciiToLowerCase (ofString "cat"))
        (textDocument "Doc1" "cat. cat. cat. The cat sat on the mat.") := by
  decide

theorem take_append_of_length_le {α : Type} (n : Nat) (front back : List α)
    (h : front.length ≤ n) : front <+: (front ++ back).take n := by
  rw [List.take_append_eq_append_take, List.take_of_length_le h]
  exact List.prefix_append _ _

/-- C4 as amended: `relevantPassages` is obtained by taking the first 3 relevant sentences
in document order, trimming each, and then discarding every trimmed sentence shorter than
11 code units.  It is an initial segment of the list of the specification (discard, then
cap), and equal to it when none of the first three relevant sentences is discarded. -/
theorem relevantPassages_cap_then_discard (toLowerCase : JSString → JSString)
    (words : List JSString) (doc : Document) :
    relevantPassages toLowerCase words doc =
      ((((splitSentences doc.content).filter (isRelevant toLowerCase words)).take 3).map
        trim).filter (fun passage => decide (11 ≤ passage.length)) ∧
    relevantPassages toLowerCase words doc <+: specPassages toLowerCase words doc ∧
    ((∀ sentence ∈ ((splitSentences doc.content).filter (isRelevant toLowerCase words)).take 3,
        11 ≤ (trim sentence).length) →
      relevantPassages toLowerCase words doc = specPassages toLowerCase words doc) := by
  have hpred : (fun passage : JSString => decide (passage.length > 10)) =
      (fun passage : JSString => decide (11 ≤ passage.length)) := by
    funext passage
    simp only [gt_iff_lt, decide_eq_decide]
    omega
  have hcode : relevantPassages toLowerCase words doc =
      ((((splitSentences doc.content).filter (isRelevant toLowerCase words)).take 3).map
        trim).filter (fun passage => decide (11 ≤ passage.length)) := by
    unfold relevantPassages
    rw [hpred]
  have hsplit : specPassages toLowerCase words doc =
      (relevantPassages toLowerCase words doc ++
        ((((splitSentences doc.content).filter (isRelevant toLowerCase words)).drop 3).map
          trim).filter (fun passage => decide (11 ≤ passage.length))).take 3 := by
    rw [hcode, ← List.filter_append, ← List.map_append, List.take_append_drop]
    rfl
  have hlen : (relevantPassages toLowerCase words doc).length ≤ 3 := by
    rw [hcode]
    refine Nat.le_trans (List.length_filter_le _ _) ?_
    rw [List.length_map, List.length_take]
    exact Nat.min_le_left _ _
  refine ⟨hcode, ?_, ?_⟩
  · rw [hsplit]
    exact take_append_of_length_le 3 _ _ hlen
  · intro hall
    have hkeep : relevantPassages toLowerCase words doc =
        (((splitSentences doc.content).filter (isRelevant toLowerCase words)).take 3).map
          trim := by
      rw [hcode, List.filter_eq_self]
      intro passage hp
      rw [List.mem_map] at hp
      obtain ⟨sentence, hs, rfl⟩ := hp
      simpa using hall sentence hs
    rw [hsplit]
    by_cases hthree : 3 ≤ ((splitSentences doc.content).filter
        (isRelevant toLowerCase words)).length
    · have hlen3 : (relevantPassages toLowerCase words doc).length = 3 := by
        rw [hkeep, List.length_map, List.length_take]
        omega
      rw [List.take_append_eq_append_take, hlen3, Nat.sub_self, List.take_zero,
        List.append_nil, List.take_of_length_le (Nat.le_of_eq hlen3)]
    · have hdrop : ((splitSentences doc.content).filter
          (isRelevant toLowerCase words)).drop 3 = [] := by
        rw [List.drop_eq_nil_iff]
        omega
      rw [hdrop, List.map_nil, List.filter_nil, List.append_nil,
        List.take_of_length_le hlen]

/-- C4 as amended, at a content whose first three relevant sentences are all long. -/
theorem relevantPassages_cap_then_discard_witness :
    (∀ sentence ∈ ((splitSentences
          (textDocument "Doc1" "The cat sat on the mat. Dogs bark loudly.").content).filter
        (isRelevant asciiToLowerCase [ofString "cat"])).take 3,
      11 ≤ (trim sentence).length) ∧
    relevantPassages asciiToLowerCase [ofString "cat"]
        (textDocument "Doc1" "The cat sat on the mat. Dogs bark loudly.") =
      specPassages asciiToLowerCase [ofString "cat"]
        (textDocument "Doc1" "The cat sat on the mat. Dogs bark loudly.") :=
  ⟨by decide,
    (relevantPassages_cap_then_discard asciiToLowerCase [ofString "cat"]
      (textDocument "Doc1" "The cat sat on the mat. Dogs bark loudly.")).2.2 (by decide)⟩

/-- C5: every element of `relevantPassages` is the trimmed form of a sentence of
`content.split(/[.!?]+/)`; the passages are the trimmed forms of a subsequence `chosen`
of the sentences, so they come in document order; each chosen sentence is a contiguous
part of the content, it and hence its passage contain none of `.`, `!`, `?`, the passage
is a contiguous part of the sentence, and the lower-cased sentence contains the
lower-cased form of some query token as a contiguous run. -/
theorem relevantPassages_from_sentences (toLowerCase : JSString → JSString)
    (words : List JSString) (doc : Document) :
    ∃ chosen : List JSString,
      List.Sublist chosen (splitSentences doc.content) ∧
      relevantPassages toLowerCase words doc = chosen.map trim ∧
      ∀ sentence ∈ chosen,
        sentence <:+: doc.content ∧
        (∀ c ∈ sentence, isSentenceDelimiter c = false) ∧
        trim sentence <:+: sentence ∧
        (∀ c ∈ trim sentence, isSentenceDelimiter c = false) ∧
        ∃ word ∈ words, toLowerCase word <:+: toLowerCase sentence := by
  refine ⟨(((splitSentences doc.content).filter (isRelevant toLowerCase words)).take 3).filter
    (fun sentence => decide ((trim sentence).length > 10)), ?_, ?_, ?_⟩
  · exact (List.filter_sublist _).trans
      ((List.take_sublist _ _).trans (List.filter_sublist _))
  · unfold relevantPassages
    rw [List.filter_map]
    rfl
  · intro sentence hs
    have h1 := (List.filter_sublist _).subset hs
    have h2 := (List.take_sublist _ _).subset h1
    rw [List.mem_filter] at h2
    have hsep := splitRuns_no_separator isSentenceDelimiter doc.content false sentence h2.1
    refine ⟨splitRuns_contiguous isSentenceDelimiter doc.content false sentence h2.1, hsep,
      trim_contiguous sentence, fun c hc => hsep c (mem_of_mem_trim sentence c hc), ?_⟩
    have hrel := h2.2
    unfold isRelevant at hrel
    rw [List.any_eq_true] at hrel
    obtain ⟨word, hword, hinc⟩ := hrel
    exact ⟨word, hword, (includes_iff _ _).mp hinc⟩

/-! ## Doubles: auxiliary facts -/

theorem excessBits_quotient (fuel : Nat) :
    ∀ m : Nat, 2 ^ 52 ≤ m → 2 ^ 52 ≤ m / 2 ^ excessBits fuel m := by
  induction fuel with
  | zero =>
    intro m h
    simpa [excessBits] using h
  | succ n ih =>
    intro m h
    unfold excessBits
    by_cases hm : m < 2 ^ 53
    · rw [if_pos hm]
      simpa using h
    · rw [if_neg hm]
      have hhalf : 2 ^ 52 ≤ m / 2 := by omega
      have hstep : m / 2 ^ (excessBits n (m / 2) + 1) = m / 2 / 2 ^ excessBits n (m / 2) := by
        rw [pow_succ', Nat.div_div_eq_div_mul]
      rw [hstep]
      exact ih (m / 2) hhalf

/-- Rounding never falls below a double `y * 2 ^ k` that the exact value reaches. -/
theorem le_roundSig (y k m : Nat) (hy : y < 2 ^ 53) (h : y * 2 ^ k ≤ m) :
    y * 2 ^ k ≤ roundSig m := by
  unfold roundSig
  by_cases hm : m < 2 ^ 53
  · rw [if_pos hm]
    exact h
  · rw [if_neg hm]
    have hq : 2 ^ 52 ≤ m / 2 ^ excessBits m m := excessBits_quotient m m (by omega)
    have hpos : 0 < 2 ^ excessBits m m := Nat.two_pow_pos _
    have hfloor : y * 2 ^ k ≤ m / 2 ^ excessBits m m * 2 ^ excessBits m m := by
      by_cases hk : excessBits m m ≤ k
      · obtain ⟨j, hj⟩ := Nat.exists_eq_add_of_le hk
        have hle : y * 2 ^ j ≤ m / 2 ^ excessBits m m := by
          rw [Nat.le_div_iff_mul_le hpos]
          calc y * 2 ^ j * 2 ^ excessBits m m = y * 2 ^ k := by
                rw [hj, Nat.pow_add, Nat.mul_assoc, Nat.mul_comm (2 ^ j)]
            _ ≤ m := h
        calc y * 2 ^ k = y * 2 ^ j * 2 ^ excessBits m m := by
              rw [hj, Nat.pow_add, Nat.mul_assoc, Nat.mul_comm (2 ^ j)]
          _ ≤ m / 2 ^ excessBits m m * 2 ^ excessBits m m := Nat.mul_le_mul_right _ hle
      · have hk' : k + 1 ≤ excessBits m m := by omega
        calc y * 2 ^ k ≤ 2 ^ 53 * 2 ^ k := Nat.mul_le_mul_right _ (Nat.le_of_lt hy)
          _ = 2 ^ 52 * 2 ^ (k + 1) := by rw [Nat.pow_succ]; ring
          _ ≤ 2 ^ 52 * 2 ^ excessBits m m :=
              Nat.mul_le_mul_left _ (Nat.pow_le_pow_right (by norm_num) hk')
          _ ≤ m / 2 ^ excessBits m m * 2 ^ excessBits m m := Nat.mul_le_mul_right _ hq
    have hup : m / 2 ^ excessBits m m * 2 ^ excessBits m m ≤
        (m / 2 ^ excessBits m m + 1) * 2 ^ excessBits m m :=
      Nat.mul_le_mul_right _ (Nat.le_succ _)
    simp only
    split_ifs
    · exact hfloor
    · exact Nat.le_trans hfloor hup
    · exact hfloor
    · exact Nat.le_trans hfloor hup

theorem roundSig_small (m : Nat) (h : m < 2 ^ 53) : roundSig m = m := by
  unfold roundSig
  rw [if_pos h]

/-- From five results on, the value is cut at 95. -/
theorem confidence_saturated (results passages : Nat) (h : 5 ≤ results) :
    Double.mathRound (confidenceValue results passages) = 95 := by
  have h1 : 5 ≤ roundSig results := by
    have := le_roundSig 5 0 results (by norm_num) (by simpa using h)
    simpa using this
  have h2 : 2 ^ 54 ≤ roundSig (roundSig results * 3602879701896397) := by
    have := le_roundSig 1 54 (roundSig results * 3602879701896397) (by norm_num)
      (by norm_num; omega)
    simpa using this
  have h3 : 2 ^ 109 ≤ roundSig (roundSig (roundSig results * 3602879701896397) * 2 ^ 55 +
      roundSig (roundSig passages * 3602879701896397) * 2 ^ 54) := by
    have := le_roundSig 1 109 (roundSig (roundSig results * 3602879701896397) * 2 ^ 55 +
      roundSig (roundSig passages * 3602879701896397) * 2 ^ 54) (by norm_num)
      (by norm_num at h2 ⊢; omega)
    simpa using this
  have h4 : 100 * 2 ^ 109 ≤ roundSig (roundSig (roundSig (roundSig results *
      3602879701896397) * 2 ^ 55 + roundSig (roundSig passages * 3602879701896397) * 2 ^ 54)
        * 100) :=
    le_roundSig 100 109 _ (by norm_num) (by norm_num at h3 ⊢; omega)
  have hle : Double.le ⟨roundSig (roundSig (roundSig (roundSig results *
      3602879701896397) * 2 ^ 55 + roundSig (roundSig passages * 3602879701896397) * 2 ^ 54)
        * 100), 109⟩ ⟨95, 0⟩ = false := by
    unfold Double.le
    simp only [decide_eq_false_iff_not, Nat.not_le]
    norm_num at h4 ⊢
    omega
  have h100 : roundSig 100 = 100 := roundSig_small 100 (by norm_num)
  have h95 : roundSig 95 = 95 := roundSig_small 95 (by norm_num)
  unfold confidenceValue
  simp only [Double.mul, Double.add, Double.ofNat, Double.round, Double.lit_0_2,
    Double.lit_0_1, h100, h95, Nat.zero_add, Nat.add_zero]
  unfold Double.min
  rw [hle]
  simp only [Bool.false_eq_true, if_false]
  decide

theorem confidence_small :
    ∀ results < 5, ∀ passages < 11, 0 < results →
      Double.mathRound (confidenceValue results passages) =
        min (20 * results + 10 * passages) 95 := by
  decide

/-- The confidence arithmetic in doubles agrees with exact arithmetic. -/
theorem confidence_exact (results passages : Nat) (hr : 0 < results) (hp : passages ≤ 10) :
    Double.mathRound (confidenceValue results passages) =
      min (20 * results + 10 * passages) 95 := by
  by_cases h : 5 ≤ results
  · rw [confidence_saturated results passages h]
    omega
  · exact confidence_small results (by omega) passages (by omega) hr

/-! ## Answer synthesis: auxiliary facts -/

theorem appendBlocks_sources :
    ∀ (results : List ScoredDocument) (answer : JSString) (sources : List Source),
      (appendBlocks results (answer, sources)).2 =
        sources ++ (results.filter hasPassage).map
          (fun result => makeSource result (result.relevantPassages.headD [])) := by
  intro results
  induction results with
  | nil =>
    intro answer sources
    simp [appendBlocks]
  | cons r rs ih =>
    intro answer sources
    unfold appendBlocks
    cases hp : r.relevantPassages with
    | nil =>
      have hno : hasPassage r = false := by simp [hasPassage, hp]
      simp only [ih, List.filter_cons, hno, Bool.false_eq_true, if_false]
    | cons passage rest =>
      have hyes : hasPassage r = true := by simp [hasPassage, hp]
      simp only [ih, List.filter_cons, hyes, if_true, List.map_cons, hp, List.headD_cons,
        List.append_assoc, List.singleton_append]

theorem allPassages_eq_nil {results : List ScoredDocument}
    (h : (allPassages results).length = 0) : ∀ r ∈ results, hasPassage r = false := by
  intro r hr
  unfold allPassages at h
  rw [List.length_eq_zero, List.take_eq_nil_iff] at h
  rcases h with h | h
  · omega
  · rw [List.flatten_eq_nil_iff] at h
    have := h r.relevantPassages (List.mem_map_of_mem _ hr)
    simp [hasPassage, this]

/-- The sources of an answer: one per document with a passage among the first three. -/
theorem generateAnswer_sources (question : JSString) (results : List ScoredDocument) :
    (generateAnswer question results).sources =
      ((results.take 3).filter hasPassage).map
        (fun result => makeSource result (result.relevantPassages.headD [])) := by
  unfold generateAnswer
  by_cases hempty : results.length = 0
  · rw [if_pos hempty]
    have : results = [] := List.length_eq_zero.mp hempty
    subst this
    rfl
  · rw [if_neg hempty]
    by_cases hnone : (allPassages results).length = 0
    · simp only [hnone, if_true]
      have hall := allPassages_eq_nil hnone
      have hfilter : (results.take 3).filter hasPassage = [] := by
        rw [List.filter_eq_nil_iff]
        intro r hr
        have := hall r ((List.take_sublist _ _).subset hr)
        simp [this]
      rw [hfilter]
      rfl
    · simp only [hnone, if_false]
      rw [appendBlocks_sources]
      rfl

theorem length_allPassages (results : List ScoredDocument) :
    (allPassages results).length =
      min ((results.map (fun result => result.relevantPassages.length)).sum) 10 := by
  unfold allPassages
  rw [List.length_take, List.length_flatten, List.map_map, Nat.min_comm]
  rfl

/-- The confidence of an answer to a non-empty result list. -/
theorem generateAnswer_confidence (question : JSString) (results : List ScoredDocument)
    (h : results ≠ []) :
    (generateAnswer question results).confidence =
      Double.mathRound (confidenceValue results.length
        (min ((results.map (fun result => result.relevantPassages.length)).sum) 10)) := by
  unfold generateAnswer
  have hlen : ¬ results.length = 0 := fun h0 => h (List.length_eq_zero.mp h0)
  rw [if_neg hlen]
  simp only [length_allPassages]

/-! ## Claims on the answer -/

/-- C6 as stated fails.  For the question `cat` over four documents of which only the
top-ranked one has no passage, three ranked documents have a passage and `sources` has
two entries, for the 2nd and 3rd documents, not min(3, 3) = 3; over four documents of
which only the fourth-ranked one has a passage, `sources` is empty. -/
theorem sources_skip_fourth_document :
    searchDocuments asciiToLowerCase (ofString "cat") storeFirstWithoutPassage =
        .ok rankedFirstWithoutPassage ∧
      (rankedFirstWithoutPassage.filter hasPassage).length = 3 ∧
      (generateAnswer (ofString "cat") rankedFirstWithoutPassage).sources.map
        (fun source => source.title) = [ofString "D2", ofString "D3"] ∧
      (generateAnswer (ofString "cat") rankedFirstWithoutPassage).sources.length ≠
        min 3 (rankedFirstWithoutPassage.filter hasPassage).length ∧
      searchDocuments asciiToLowerCase (ofString "cat") storeOnlyFourthWithPassage =
        .ok rankedOnlyFourthWithPassage ∧
      (rankedOnlyFourthWithPassage.filter hasPassage).length = 1 ∧
      (generateAnswer (ofString "cat") rankedOnlyFourthWithPassage).sources = [] := by
  decide

/-- C6 as amended: the sources are built, in rank order, from those of the first three
ranked documents that have a passage, each from its document and first passage.  Their
number is the number of documents with a passage among the first three, which is at most
the smaller of 3 and the number of ranked documents with a passage, and `sources` is
non-empty exactly when one of the first three ranked documents has a passage. -/
theorem sources_from_first_three (question : JSString) (results : List ScoredDocument) :
    (generateAnswer question results).sources =
      ((results.take 3).filter hasPassage).map
        (fun result => makeSource result (result.relevantPassages.headD [])) ∧
    (generateAnswer question results).sources.length =
      ((results.take 3).filter hasPassage).length ∧
    (generateAnswer question results).sources.length ≤
      min 3 (results.filter hasPassage).length ∧
    ((generateAnswer question results).sources ≠ [] ↔
      ∃ result ∈ results.take 3, hasPassage result = true) := by
  have hsrc := generateAnswer_sources question results
  have hlen : (generateAnswer question results).sources.length =
      ((results.take 3).filter hasPassage).length := by
    rw [hsrc, List.length_map]
  refine ⟨hsrc, hlen, ?_, ?_⟩
  · rw [hlen]
    refine Nat.le_min.mpr ⟨?_, ?_⟩
    · exact Nat.le_trans (List.length_filter_le _ _) (List.length_take_le _ _)
    · exact ((List.take_sublist 3 results).filter hasPassage).length_le
  · rw [hsrc]
    simp only [ne_eq, List.map_eq_nil_iff, List.filter_eq_nil_iff, not_forall,
      Bool.not_eq_true, Bool.not_eq_false, exists_prop]

/-- C7: `sources` has at most 3 entries; they are built, in rank order, from a
subsequence `chosen` of the first three ranked documents, entry by entry with that
document's title, its fileType and its score as relevance; so no document ranked fourth
or fifth contributes, and along a ranked list of non-increasing scores the relevance is
non-increasing. -/
theorem sources_of_top_three (question : JSString) (results : List ScoredDocument) :
    (generateAnswer question results).sources.length ≤ 3 ∧
    (∃ chosen : List ScoredDocument,
      List.Sublist chosen (results.take 3) ∧
      List.Forall₂ (fun (source : Source) (result : ScoredDocument) =>
          source.title = result.document.title ∧
          source.fileType = result.document.fileType ∧
          source.relevance = result.score)
        (generateAnswer question results).sources chosen) ∧
    (results.Pairwise (fun a b => b.score ≤ a.score) →
      (generateAnswer question results).sources.Pairwise
        (fun a b => b.relevance ≤ a.relevance)) := by
  have hsrc := generateAnswer_sources question results
  refine ⟨?_, ⟨(results.take 3).filter hasPassage, List.filter_sublist _, ?_⟩, ?_⟩
  · rw [hsrc, List.length_map]
    exact Nat.le_trans (List.length_filter_le _ _) (List.length_take_le _ _)
  · rw [hsrc, List.forall₂_map_left_iff]
    exact List.forall₂_same.mpr (fun r _ => ⟨rfl, rfl, rfl⟩)
  · intro hsorted
    rw [hsrc, List.pairwise_map]
    exact (hsorted.sublist ((List.filter_sublist _).trans (List.take_sublist _ _))).imp
      (fun {a b} hab => hab)

/-- C7 at a concrete ranked list of four documents with scores 3, 2, 2, 1. -/
theorem sources_of_top_three_witness :
    [(⟨textDocument "A" "a", 3, [ofString "first passage of A"]⟩ : ScoredDocument),
        ⟨textDocument "B" "b", 2, []⟩, ⟨textDocument "C" "c", 2, [ofString "passage of C"]⟩,
        ⟨textDocument "D" "d", 1, [ofString "passage of D"]⟩].Pairwise
      (fun a b => b.score ≤ a.score) ∧
    (generateAnswer (ofString "q")
      [⟨textDocument "A" "a", 3, [ofString "first passage of A"]⟩,
        ⟨textDocument "B" "b", 2, []⟩, ⟨textDocument "C" "c", 2, [ofString "passage of C"]⟩,
        ⟨textDocument "D" "d", 1, [ofString "passage of D"]⟩]).sources.Pairwise
      (fun a b => b.relevance ≤ a.relevance) :=
  ⟨by decide,
    (sources_of_top_three (ofString "q")
      [⟨textDocument "A" "a", 3, [ofString "first passage of A"]⟩,
        ⟨textDocument "B" "b", 2, []⟩, ⟨textDocument "C" "c", 2, [ofString "passage of C"]⟩,
        ⟨textDocument "D" "d", 1, [ofString "passage of D"]⟩]).2.2 (by decide)⟩

/-- C8: for every ranked list the confidence returned by `generateAnswer` is a natural
number between 0 and 95. -/
theorem confidence_within_bounds (question : JSString) (results : List ScoredDocument) :
    0 ≤ (generateAnswer question results).confidence ∧
      (generateAnswer question results).confidence ≤ 95 := by
  refine ⟨Nat.zero_le _, ?_⟩
  by_cases h : results = []
  · subst h
    exact Nat.zero_le 95
  · rw [generateAnswer_confidence question results h,
      confidence_exact _ _ (List.length_pos.mpr h) (Nat.min_le_right _ _)]
    exact Nat.min_le_right _ _

/-- C9: for a non-empty ranked list of `R` documents holding `T` passages in total, with
`P = min T 10`, the confidence is `Math.round(Math.min((R * 0.2 + P * 0.1) * 100, 95))`
evaluated in double arithmetic, and this equals `min (20 * R + 10 * P) 95`. -/
theorem confidence_formula (question : JSString) (results : List ScoredDocument)
    (h : results ≠ []) :
    (generateAnswer question results).confidence =
      Double.mathRound (confidenceValue results.length
        (min ((results.map (fun result => result.relevantPassages.length)).sum) 10)) ∧
    (generateAnswer question results).confidence =
      min (20 * results.length +
        10 * min ((results.map (fun result => result.relevantPassages.length)).sum) 10) 95 := by
  have hconf := generateAnswer_confidence question results h
  refine ⟨hconf, ?_⟩
  rw [hconf]
  exact confidence_exact _ _ (List.length_pos.mpr h) (Nat.min_le_right _ _)

/-- C9 at a ranked list of two documents with three passages: confidence 70. -/
theorem confidence_formula_witness :
    ([(⟨textDocument "A" "a", 3, [ofString "first passage of A", ofString "second of A"]⟩ :
        ScoredDocument), ⟨textDocument "B" "b", 2, [ofString "passage of B"]⟩] ≠ []) ∧
    (generateAnswer (ofString "q")
      [⟨textDocument "A" "a", 3, [ofString "first passage of A", ofString "second of A"]⟩,
        ⟨textDocument "B" "b", 2, [ofString "passage of B"]⟩]).confidence = 70 :=
  ⟨by decide,
    ((confidence_formula (ofString "q")
      [⟨textDocument "A" "a", 3, [ofString "first passage of A", ofString "second of A"]⟩,
        ⟨textDocument "B" "b", 2, [ofString "passage of B"]⟩] (by decide)).2).trans
      (by decide)⟩

/-- C10: the confidence is 0 exactly when the ranked list is empty; for every non-empty
ranked list it is at least 20, whatever the passages. -/
theorem confidence_zero_iff_empty (question : JSString) (results : List ScoredDocument) :
    ((generateAnswer question results).confidence = 0 ↔ results = []) ∧
    (results ≠ [] → 20 ≤ (generateAnswer question results).confidence) := by
  have hpos : results ≠ [] → 20 ≤ (generateAnswer question results).confidence := by
    intro h
    rw [generateAnswer_confidence question results h,
      confidence_exact _ _ (List.length_pos.mpr h) (Nat.min_le_right _ _)]
    have := List.length_pos.mpr h
    omega
  refine ⟨⟨?_, ?_⟩, hpos⟩
  · intro hzero
    by_contra hne
    have := hpos hne
    omega
  · intro hempty
    subst hempty
    rfl

/-- C10 at a ranked list of one document without passage: confidence 20. -/
theorem confidence_zero_iff_empty_witness :
    ([(⟨textDocument "A" "cat", 1, []⟩ : ScoredDocument)] ≠ []) ∧
    20 ≤ (generateAnswer (ofString "cat") [⟨textDocument "A" "cat", 1, []⟩]).confidence :=
  ⟨by decide,
    (confidence_zero_iff_empty (ofString "cat") [⟨textDocument "A" "cat", 1, []⟩]).2
      (by decide)⟩

/-! ## Trimming: auxiliary facts -/

/-- Trimming leaves a string alone that neither starts nor ends with white space. -/
theorem trim_eq_self (a : CodeUnit) (mid : JSString) (b : CodeUnit)
    (ha : isWhiteSpace a = false) (hb : isWhiteSpace b = false) :
    trim (a :: (mid ++ [b])) = a :: (mid ++ [b]) := by
  unfold trim
  rw [List.dropWhile_cons_of_neg (by simp [ha])]
  have h := List.rdropWhile_concat_neg isWhiteSpace (a :: mid) b (by simp [hb])
  unfold List.rdropWhile at h
  simpa using h

/-- Trimming removes a final blank line behind a code unit that is no white space. -/
theorem trim_blank_line (a : CodeUnit) (mid : JSString) (b : CodeUnit)
    (ha : isWhiteSpace a = false) (hb : isWhiteSpace b = false) :
    trim (a :: (mid ++ [b] ++ ofString "\n\n")) = a :: (mid ++ [b]) := by
  unfold trim
  rw [List.dropWhile_cons_of_neg (by simp [ha])]
  have hnl : isWhiteSpace 10 = true := by decide
  have hsplit : a :: (mid ++ [b] ++ ofString "\n\n") = ((a :: mid) ++ [b] ++ [10]) ++ [10] := by
    have : ofString "\n\n" = [10, 10] := by decide
    rw [this]
    simp
  have h1 := List.rdropWhile_concat_pos isWhiteSpace ((a :: mid) ++ [b] ++ [10]) 10 hnl
  have h2 := List.rdropWhile_concat_pos isWhiteSpace ((a :: mid) ++ [b]) 10 hnl
  have h3 := List.rdropWhile_concat_neg isWhiteSpace (a :: mid) b (by simp [hb])
  rw [hsplit]
  unfold List.rdropWhile at h1 h2 h3
  rw [h1, h2, h3]
  simp

theorem dropWhile_head_not {α : Type} (p : α → Bool) :
    ∀ (l : List α) (x : α) (t : List α), l.dropWhile p = x :: t → p x = false := by
  intro l
  induction l with
  | nil =>
    intro x t h
    simp at h
  | cons a l ih =>
    intro x t h
    by_cases ha : p a = true
    · rw [List.dropWhile_cons_of_pos ha] at h
      exact ih x t h
    · rw [List.dropWhile_cons_of_neg ha] at h
      simp only [List.cons.injEq] at h
      rw [← h.1]
      simpa using ha

/-- A trimmed string that is not empty ends with a code unit that is no white space. -/
theorem trim_ends_nonblank (s : JSString) (h : trim s ≠ []) :
    ∃ init x, trim s = init ++ [x] ∧ isWhiteSpace x = false := by
  unfold trim at h ⊢
  cases hd : (s.dropWhile isWhiteSpace).reverse.dropWhile isWhiteSpace with
  | nil =>
    rw [hd] at h
    simp at h
  | cons x t =>
    exact ⟨t.reverse, x, by simp, dropWhile_head_not isWhiteSpace _ x t hd⟩

/-- Every passage ends with a code unit that is no white space. -/
theorem passage_ends_nonblank (toLowerCase : JSString → JSString) (words : List JSString)
    (doc : Document) :
    ∀ passage ∈ relevantPassages toLowerCase words doc,
      ∃ init x, passage = init ++ [x] ∧ isWhiteSpace x = false := by
  intro passage hp
  unfold relevantPassages at hp
  rw [List.mem_filter, List.mem_map] at hp
  obtain ⟨⟨sentence, _, rfl⟩, hlen⟩ := hp
  apply trim_ends_nonblank
  intro hnil
  rw [hnil] at hlen
  simp at hlen

/-! ## The query handler: auxiliary facts -/

theorem scoredDocuments_of_scores (toLowerCase : JSString → JSString) (words : List JSString)
    (value : Document → Nat) :
    ∀ documents : List Document,
      (∀ doc ∈ documents, score toLowerCase words doc = .ok (value doc)) →
      scoredDocuments toLowerCase words documents =
        .ok (documents.map
          (fun doc => ⟨doc, value doc, relevantPassages toLowerCase words doc⟩)) := by
  intro documents
  induction documents with
  | nil =>
    intro _
    rfl
  | cons doc docs ih =>
    intro h
    unfold scoredDocuments scoreDocument
    rw [h doc (List.mem_cons_self _ _), ih (fun d hd => h d (List.mem_cons_of_mem _ hd))]
    rfl

theorem rank_eq_nil (items : List ScoredDocument) (h : ∀ item ∈ items, item.score = 0) :
    rank items = [] := by
  unfold rank
  have hfilter : items.filter (fun item => decide (item.score > 0)) = [] := by
    rw [List.filter_eq_nil_iff]
    intro item hitem
    simp [h item hitem]
  rw [hfilter]
  rfl

theorem handler_of_searchDocuments (toLowerCase : JSString → JSString) (now question : JSString)
    (documents : List Document) (results : List ScoredDocument)
    (hstore : documents ≠ []) (hquestion : question ≠ [])
    (h : searchDocuments toLowerCase question documents = .ok results) :
    handler toLowerCase now documents ⟨ofString "POST", some (.string question)⟩ =
      some ⟨200, .answer (generateAnswer question results).text
        (generateAnswer question results).sources
        (generateAnswer question results).confidence now⟩ := by
  have hlen : ¬ documents.length = 0 := fun h0 => hstore (List.length_eq_zero.mp h0)
  have hempty : question.isEmpty = false := by
    cases question with
    | nil => exact absurd rfl hquestion
    | cons c cs => rfl
  unfold handler
  simp only [ne_eq, not_true_eq_false, if_false, JSValue.truthy, JSValue.isString,
    JSValue.stringValue, hempty, Bool.not_false, Bool.not_true, Bool.or_self,
    Bool.false_eq_true, hlen, h]

/-! ## Claims on the query handler and the answer text -/

set_option maxRecDepth 100000

/-- C12: for a non-empty ranked list in which no document has a passage, `generateAnswer`
returns no sources and the templated text, which begins `I found N relevant document(s)
but couldn't extract specific passages that directly answer your question.` with `N` the
number of ranked documents in decimal. -/
theorem answer_without_passages (question : JSString) (results : List ScoredDocument)
    (hne : results ≠ []) (hnone : ∀ r ∈ results, r.relevantPassages = []) :
    (generateAnswer question results).sources = [] ∧
    (generateAnswer question results).text =
      ofString "I found " ++ ofString (toString results.length) ++
        ofString " relevant document(s) but couldn't extract specific passages that directly answer your question. The documents contain information related to your query, but may require more specific questions to get detailed answers." ∧
    (ofString "I found " ++ ofString (toString results.length) ++
        ofString " relevant document(s) but couldn't extract specific passages that directly answer your question.") <+:
      (generateAnswer question results).text := by
  have hlen : ¬ results.length = 0 := fun h0 => hne (List.length_eq_zero.mp h0)
  have hall : (allPassages results).length = 0 := by
    unfold allPassages
    rw [List.length_eq_zero, List.take_eq_nil_iff]
    right
    rw [List.flatten_eq_nil_iff]
    intro l hl
    rw [List.mem_map] at hl
    obtain ⟨r, hr, rfl⟩ := hl
    exact hnone r hr
  have htext : (generateAnswer question results).text = noPassagesText results.length := by
    unfold generateAnswer
    simp only [hlen, if_false, hall, if_true]
    have hhead : ofString "I found " = 73 :: ofString " found " := by decide
    have hlast : ofString " relevant document(s) but couldn't extract specific passages that directly answer your question. The documents contain information related to your query, but may require more specific questions to get detailed answers." =
        ofString " relevant document(s) but couldn't extract specific passages that directly answer your question. The documents contain information related to your query, but may require more specific questions to get detailed answers" ++ [46] := by
      decide
    have hshape : noPassagesText results.length =
        73 :: ((ofString " found " ++ ofString (toString results.length) ++
          ofString " relevant document(s) but couldn't extract specific passages that directly answer your question. The documents contain information related to your query, but may require more specific questions to get detailed answers") ++ [46]) := by
      unfold noPassagesText
      rw [hhead, hlast]
      simp
    rw [hshape]
    exact trim_eq_self 73 _ 46 (by decide) (by decide)
  refine ⟨?_, ?_, ?_⟩
  · rw [generateAnswer_sources]
    have hfilter : (results.take 3).filter hasPassage = [] := by
      rw [List.filter_eq_nil_iff]
      intro r hr
      simp [hasPassage, hnone r ((List.take_sublist _ _).subset hr)]
    rw [hfilter]
    rfl
  · rw [htext]
    rfl
  · rw [htext]
    have hsplit : ofString " relevant document(s) but couldn't extract specific passages that directly answer your question. The documents contain information related to your query, but may require more specific questions to get detailed answers." =
        ofString " relevant document(s) but couldn't extract specific passages that directly answer your question." ++
          ofString " The documents contain information related to your query, but may require more specific questions to get detailed answers." := by
      decide
    unfold noPassagesText
    rw [hsplit, ← List.append_assoc]
    exact List.prefix_append _ _

/-- C12 at a ranked list of one document without passage. -/
theorem answer_without_passages_witness :
    ([(⟨textDocument "A" "cat", 1, []⟩ : ScoredDocument)] ≠ []) ∧
    (∀ r ∈ [(⟨textDocument "A" "cat", 1, []⟩ : ScoredDocument)], r.relevantPassages = []) ∧
    (generateAnswer (ofString "cat") [⟨textDocument "A" "cat", 1, []⟩]).sources = [] ∧
    (generateAnswer (ofString "cat") [⟨textDocument "A" "cat", 1, []⟩]).text =
      ofString "I found 1 relevant document(s) but couldn't extract specific passages that directly answer your question. The documents contain information related to your query, but may require more specific questions to get detailed answers." :=
  ⟨by decide, by decide,
    (answer_without_passages (ofString "cat") [⟨textDocument "A" "cat", 1, []⟩] (by decide)
      (by decide)).1,
    (answer_without_passages (ofString "cat") [⟨textDocument "A" "cat", 1, []⟩] (by decide)
      (by decide)).2.1.trans (by decide)⟩

/-! ## The answer text: auxiliary facts -/

theorem hasPassage_iff (r : ScoredDocument) :
    hasPassage r = true ↔ ∃ p rest, r.relevantPassages = p :: rest := by
  unfold hasPassage
  cases hp : r.relevantPassages with
  | nil => simp
  | cons p rest => simp

theorem appendBlocks_text :
    ∀ (results : List ScoredDocument) (answer : JSString) (sources : List Source),
      (appendBlocks results (answer, sources)).1 =
        answer ++ ((results.filter hasPassage).map
          (fun result => answerBlock result ++ ofString "\n\n")).flatten := by
  intro results
  induction results with
  | nil =>
    intro answer sources
    simp [appendBlocks]
  | cons r rs ih =>
    intro answer sources
    unfold appendBlocks
    cases hp : r.relevantPassages with
    | nil =>
      have hno : hasPassage r = false := by simp [hasPassage, hp]
      simp only [ih, List.filter_cons, hno, Bool.false_eq_true, if_false]
    | cons passage rest =>
      have hyes : hasPassage r = true := by simp [hasPassage, hp]
      simp only [ih, List.filter_cons, hyes, if_true, List.map_cons, List.flatten_cons,
        answerBlock, hp, List.headD_cons, List.append_assoc]

/-- The text of an answer built from blocks, before trimming. -/
theorem generateAnswer_text (question : JSString) (results : List ScoredDocument)
    (hsome : ∃ r ∈ results, hasPassage r = true) :
    (generateAnswer question results).text =
      trim (basedOnText ++ (((results.take 3).filter hasPassage).map
        (fun result => answerBlock result ++ ofString "\n\n")).flatten) := by
  obtain ⟨r, hr, hpass⟩ := hsome
  have hlen : ¬ results.length = 0 := by
    intro h0
    rw [List.length_eq_zero] at h0
    rw [h0] at hr
    simp at hr
  have hall : ¬ (allPassages results).length = 0 := by
    intro h0
    have := allPassages_eq_nil h0 r hr
    rw [hpass] at this
    exact absurd this (by decide)
  unfold generateAnswer
  simp only [hlen, if_false, hall, appendBlocks_text]

theorem blocks_end_blank (blocks : List ScoredDocument) :
    ((blocks.map (fun result => answerBlock result ++ ofString "\n\n")).flatten = []) ∨
    ∃ front, (blocks.map (fun result => answerBlock result ++ ofString "\n\n")).flatten =
      front ++ ofString "\n\n" := by
  rcases List.eq_nil_or_concat blocks with h | ⟨front, last, h⟩
  · left
    rw [h]
    rfl
  · right
    rw [h, List.concat_eq_append, List.map_append, List.flatten_append]
    refine ⟨(front.map (fun result => answerBlock result ++ ofString "\n\n")).flatten ++
      answerBlock last, ?_⟩
    simp

/-- The answer text when every passage ends with a code unit that is no white space:
followed by a blank line, it is the opening line and the blocks, each followed by a
blank line. -/
theorem answer_text_shape (question : JSString) (results : List ScoredDocument)
    (hsome : ∃ r ∈ results, hasPassage r = true)
    (hends : ∀ r ∈ results, ∀ p ∈ r.relevantPassages,
      ∃ init x, p = init ++ [x] ∧ isWhiteSpace x = false) :
    (generateAnswer question results).text ++ ofString "\n\n" =
      basedOnText ++ (((results.take 3).filter hasPassage).map
        (fun result => answerBlock result ++ ofString "\n\n")).flatten := by
  rw [generateAnswer_text question results hsome]
  have hbased : basedOnText =
      66 :: (ofString "ased on the uploaded documents, here's what I found" ++ [58] ++
        ofString "\n\n") := by
    decide
  rcases List.eq_nil_or_concat ((results.take 3).filter hasPassage) with h | ⟨front, last, h⟩
  · rw [h]
    simp only [List.map_nil, List.flatten_nil, List.append_nil]
    rw [hbased, trim_blank_line 66 _ 58 (by decide) (by decide)]
    simp
  · rw [h, List.concat_eq_append, List.map_append, List.flatten_append]
    have hlast : last ∈ (results.take 3).filter hasPassage := by
      rw [h, List.concat_eq_append]
      simp
    rw [List.mem_filter] at hlast
    obtain ⟨p, rest, hp⟩ := (hasPassage_iff last).mp hlast.2
    have hmem : last ∈ results := (List.take_sublist _ _).subset hlast.1
    obtain ⟨init, x, hpx, hx⟩ := hends last hmem p (by rw [hp]; exact List.mem_cons_self _ _)
    have hshape : basedOnText ++
        ((front.map (fun result => answerBlock result ++ ofString "\n\n")).flatten ++
          ([last].map (fun result => answerBlock result ++ ofString "\n\n")).flatten) =
        66 :: ((ofString "ased on the uploaded documents, here's what I found" ++ [58] ++
          ofString "\n\n" ++
          (front.map (fun result => answerBlock result ++ ofString "\n\n")).flatten ++
          (ofString "From \"" ++ last.document.title ++ ofString "\":\n") ++ init) ++ [x] ++
          ofString "\n\n") := by
      rw [hbased]
      simp only [List.map_cons, List.map_nil, List.flatten_cons, List.flatten_nil,
        List.append_nil, answerBlock, hp, List.headD_cons, hpx, List.cons_append,
        List.append_assoc]
    rw [hshape, trim_blank_line 66 _ x (by decide) hx]
    simp

/-- Every block of the answer occurs in the trimmed text. -/
theorem answer_text_contains (question : JSString) (results : List ScoredDocument)
    (hsome : ∃ r ∈ results, hasPassage r = true)
    (hends : ∀ r ∈ results, ∀ p ∈ r.relevantPassages,
      ∃ init x, p = init ++ [x] ∧ isWhiteSpace x = false) :
    ∀ r ∈ (results.take 3).filter hasPassage,
      answerBlock r <:+: (generateAnswer question results).text := by
  intro r hr
  have hshape := answer_text_shape question results hsome hends
  obtain ⟨before, after, hsplit⟩ := List.append_of_mem hr
  rw [hsplit, List.map_append, List.map_cons, List.flatten_append, List.flatten_cons]
    at hshape
  rcases blocks_end_blank after with hnil | ⟨front, hfront⟩
  · rw [hnil, List.append_nil, ← List.append_assoc, ← List.append_assoc] at hshape
    have := List.append_cancel_right hshape
    exact ⟨basedOnText ++ (before.map
      (fun result => answerBlock result ++ ofString "\n\n")).flatten, [], by
        rw [this]
        simp⟩
  · rw [hfront] at hshape
    have hre : basedOnText ++
        ((before.map (fun result => answerBlock result ++ ofString "\n\n")).flatten ++
          (answerBlock r ++ ofString "\n\n" ++ (front ++ ofString "\n\n"))) =
        (basedOnText ++
          (before.map (fun result => answerBlock result ++ ofString "\n\n")).flatten ++
          answerBlock r ++ (ofString "\n\n" ++ front)) ++ ofString "\n\n" := by
      simp only [List.append_assoc]
    rw [hre] at hshape
    have := List.append_cancel_right hshape
    exact ⟨basedOnText ++ (before.map
      (fun result => answerBlock result ++ ofString "\n\n")).flatten,
        ofString "\n\n" ++ front, by rw [this]⟩

/-- The passages of a returned ranked list end with a code unit that is no white space. -/
theorem searchDocuments_passages_end_nonblank (toLowerCase : JSString → JSString)
    (query : JSString) (documents : List Document) (results : List ScoredDocument)
    (h : searchDocuments toLowerCase query documents = .ok results) :
    ∀ r ∈ results, ∀ p ∈ r.relevantPassages,
      ∃ init x, p = init ++ [x] ∧ isWhiteSpace x = false := by
  intro r hr p hp
  unfold searchDocuments at h
  cases hitems : scoredDocuments toLowerCase (queryWords toLowerCase query) documents with
  | error e => simp [hitems] at h
  | ok items =>
    simp only [hitems, Except.ok.injEq] at h
    rw [← h] at hr
    have hspec := scoredDocuments_ok toLowerCase _ documents items hitems
    obtain ⟨doc, _, hdoc⟩ := exists_document_of_mem hspec (mem_rank hr).1
    rw [hdoc.2.2] at hp
    exact passage_ends_nonblank toLowerCase _ doc p hp

/-- C14: every entry of `sources` is built from a document with a passage among the
first three ranked ones, and its passage field is the first 200 code units of that
document's first passage followed by `...`: the excerpt is an initial segment of the
passage of length at most 200, the field has at most 203 code units, and a passage of at
most 200 code units is kept whole. -/
theorem source_passage_excerpt (question : JSString) (results : List ScoredDocument) :
    List.Forall₂
      (fun (source : Source) (result : ScoredDocument) =>
        ∃ p rest, result.relevantPassages = p :: rest ∧
          source.passage = p.take 200 ++ ofString "..." ∧
          p.take 200 <+: p ∧
          (p.take 200).length ≤ 200 ∧
          source.passage.length ≤ 203 ∧
          (p.length ≤ 200 → source.passage = p ++ ofString "..."))
      (generateAnswer question results).sources
      ((results.take 3).filter hasPassage) := by
  rw [generateAnswer_sources, List.forall₂_map_left_iff]
  apply List.forall₂_same.mpr
  intro r hr
  rw [List.mem_filter] at hr
  obtain ⟨p, rest, hp⟩ := (hasPassage_iff r).mp hr.2
  have hdots : (ofString "...").length = 3 := by decide
  refine ⟨p, rest, hp, ?_, List.take_prefix _ _, List.length_take_le _ _, ?_, ?_⟩
  · simp [makeSource, hp]
  · simp only [makeSource, hp, List.headD_cons, List.length_append, hdots]
    have := List.length_take_le 200 p
    omega
  · intro hshort
    simp [makeSource, hp, List.take_of_length_le hshort]

/-- C14 at scenario B: the passage of 22 code units is kept whole. -/
theorem source_passage_excerpt_witness :
    (generateAnswer (ofString "cat") rankedDoc1).sources.map (fun source => source.passage) =
      [ofString "The cat sat on the mat..."] ∧
    List.Forall₂
      (fun (source : Source) (result : ScoredDocument) =>
        ∃ p rest, result.relevantPassages = p :: rest ∧
          source.passage = p.take 200 ++ ofString "..." ∧
          p.take 200 <+: p ∧
          (p.take 200).length ≤ 200 ∧
          source.passage.length ≤ 203 ∧
          (p.length ≤ 200 → source.passage = p ++ ofString "..."))
      (generateAnswer (ofString "cat") rankedDoc1).sources
      ((rankedDoc1.take 3).filter hasPassage) :=
  ⟨by decide, source_passage_excerpt (ofString "cat") rankedDoc1⟩

/-! ## Tokens that occur in a document: auxiliary facts -/

theorem matchCount_pos_of_includes (word : JSString) :
    ∀ s : JSString, includes s word = true → 0 < matchCount (word.map Atom.char) 0 s := by
  intro s
  induction s with
  | nil =>
    intro h
    simp only [includes] at h
    simp [matchCount, matchesAt_char, h]
  | cons c cs ih =>
    intro h
    simp only [includes, Bool.or_eq_true] at h
    unfold matchCount
    by_cases hm : startsWith (c :: cs) word = true
    · rw [matchesAt_char, if_pos hm]
      omega
    · rw [matchesAt_char, if_neg hm]
      rcases h with h | h
      · exact absurd h hm
      · exact ih h

theorem scoreLoop_mono (content : JSString) :
    ∀ (words : List JSString) (start total : Nat),
      scoreLoop content words start = .ok total → start ≤ total := by
  intro words
  induction words with
  | nil =>
    intro start total h
    simp only [scoreLoop, Except.ok.injEq] at h
    omega
  | cons w ws ih =>
    intro start total h
    unfold scoreLoop at h
    cases hc : countMatches w content with
    | error e => simp [hc] at h
    | ok n =>
      simp only [hc] at h
      have := ih _ _ h
      omega

theorem scoreLoop_pos (content : JSString) :
    ∀ (words : List JSString) (start : Nat),
      (∀ word ∈ words, isPlain word = true) →
      (∃ word ∈ words, includes content word = true) →
      ∃ total, scoreLoop content words start = .ok total ∧ start < total := by
  intro words
  induction words with
  | nil =>
    intro start _ h
    obtain ⟨w, hw, _⟩ := h
    simp at hw
  | cons w ws ih =>
    intro start hplain hocc
    have hw := hplain w (List.mem_cons_self _ _)
    have hws : ∀ word ∈ ws, isPlain word = true :=
      fun x hx => hplain x (List.mem_cons_of_mem _ hx)
    unfold scoreLoop countMatches
    rw [newRegExp_plain hw]
    simp only
    by_cases hinc : includes content w = true
    · obtain ⟨total, htotal⟩ := scoreLoop_ok content ws
        (start + matchCount (w.map Atom.char) 0 content) hws
      have hmono := scoreLoop_mono content ws _ total htotal
      have hpos := matchCount_pos_of_includes w content hinc
      exact ⟨total, htotal, by omega⟩
    · obtain ⟨x, hx, hxinc⟩ := hocc
      rw [List.mem_cons] at hx
      rcases hx with hx | hx
      · subst hx
        exact absurd hxinc hinc
      · obtain ⟨total, htotal, hlt⟩ := ih
          (start + matchCount (w.map Atom.char) 0 content) hws ⟨x, hx, hxinc⟩
        exact ⟨total, htotal, by omega⟩

theorem exists_item_of_mem {R : Document → ScoredDocument → Prop} :
    ∀ {documents : List Document} {items : List ScoredDocument},
      List.Forall₂ R documents items → ∀ {doc : Document}, doc ∈ documents →
      ∃ item, item ∈ items ∧ R doc item := by
  intro documents items h
  induction h with
  | nil =>
    intro doc hdoc
    simp at hdoc
  | cons hhead _ ih =>
    intro doc hdoc
    rw [List.mem_cons] at hdoc
    rcases hdoc with hdoc | hdoc
    · subst hdoc
      exact ⟨_, List.mem_cons_self _ _, hhead⟩
    · obtain ⟨item, hitem, hR⟩ := ih hdoc
      exact ⟨item, List.mem_cons_of_mem _ hitem, hR⟩

theorem rank_ne_nil (items : List ScoredDocument) (item : ScoredDocument)
    (hmem : item ∈ items) (hpos : 0 < item.score) : rank items ≠ [] := by
  unfold rank
  intro h
  rw [List.take_eq_nil_iff] at h
  rcases h with h | h
  · omega
  · have hperm := sort_perm (items.filter (fun item => decide (item.score > 0)))
    rw [h] at hperm
    have hnil := hperm.symm.eq_nil
    have : item ∈ items.filter (fun item => decide (item.score > 0)) := by
      rw [List.mem_filter]
      exact ⟨hmem, by simpa using hpos⟩
    rw [hnil] at this
    simp at this

/-- For a question whose words are made of ordinary characters, one of which occurs in
the lower-cased content of a stored document, the search returns a non-empty ranked list
and the confidence of the answer is at least 20. -/
theorem searchDocuments_finds_plain_token (toLowerCase : JSString → JSString)
    (query : JSString) (documents : List Document)
    (hplain : ∀ word ∈ queryWords toLowerCase query, isPlain word = true)
    (hocc : ∃ word ∈ queryWords toLowerCase query, ∃ doc ∈ documents,
      includes (toLowerCase doc.content) word = true) :
    ∃ results, searchDocuments toLowerCase query documents = .ok results ∧
      results ≠ [] ∧ 20 ≤ (generateAnswer query results).confidence := by
  obtain ⟨results, hres⟩ := searchDocuments_ok toLowerCase query documents hplain
  have hne : results ≠ [] := by
    unfold searchDocuments at hres
    cases hitems : scoredDocuments toLowerCase (queryWords toLowerCase query) documents with
    | error e => simp [hitems] at hres
    | ok items =>
      simp only [hitems, Except.ok.injEq] at hres
      have hspec := scoredDocuments_ok toLowerCase _ documents items hitems
      obtain ⟨word, hword, doc, hdoc, hinc⟩ := hocc
      obtain ⟨item, hitem, hR⟩ := exists_item_of_mem hspec hdoc
      obtain ⟨total, htotal, hlt⟩ := scoreLoop_pos (toLowerCase doc.content)
        (queryWords toLowerCase query) 0 hplain ⟨word, hword, hinc⟩
      have hscore : item.score = total := by
        have h1 := hR.2.1
        unfold score at h1
        rw [htotal] at h1
        simp only [Except.ok.injEq] at h1
        exact h1.symm
      rw [← hres]
      exact rank_ne_nil items item hitem (by omega)
  refine ⟨results, hres, hne, ?_⟩
  rw [generateAnswer_confidence query results hne,
    confidence_exact _ _ (List.length_pos.mpr hne) (Nat.min_le_right _ _)]
  have := List.length_pos.mpr hne
  omega

/-! ## Claims on questions with special tokens -/

/-- C15, evaluated at the failing input: for the question `(` and a store whose one
document has the content `f(x)`, the token occurs in the lower-cased content, yet the
search raises a `SyntaxError`: no document is scored or ranked and the handler answers
with status 500 and no confidence. -/
theorem occurring_token_can_throw :
    queryWords asciiToLowerCase (ofString "(") = [ofString "("] ∧
    includes (asciiToLowerCase (textDocument "Doc1" "f(x)").content) (ofString "(") = true ∧
    searchDocuments asciiToLowerCase (ofString "(") [textDocument "Doc1" "f(x)"] =
      .error .syntaxError ∧
    handler asciiToLowerCase (ofString "now") [textDocument "Doc1" "f(x)"]
        ⟨ofString "POST", some (.string (ofString "("))⟩ =
      some ⟨500, .error (ofString "Failed to process query")⟩ := by
  decide

/-- C16, evaluated at the failing input: splitting never gives an empty token sequence;
the empty question gives one empty token and the question of one space gives two.  An
empty token matches at every position, so for the question of one space the document
with content `abc` gets the score 8 and is ranked, and the handler answers with status
200 and confidence 20. -/
theorem blank_question_matches_everything :
    (∀ (toLowerCase : JSString → JSString) (query : JSString),
      queryWords toLowerCase query ≠ []) ∧
    queryWords asciiToLowerCase (ofString "") = [[]] ∧
    queryWords asciiToLowerCase (ofString " ") = [[], []] ∧
    searchDocuments asciiToLowerCase (ofString " ") [textDocument "A" "abc"] =
      .ok [⟨textDocument "A" "abc", 8, []⟩] ∧
    handler asciiToLowerCase (ofString "now") [textDocument "A" "abc"]
        ⟨ofString "POST", some (.string (ofString " "))⟩ =
      some ⟨200, .answer (noPassagesText 1) [] 20 (ofString "now")⟩ := by
  refine ⟨?_, by decide, by decide, by decide, by decide⟩
  intro toLowerCase query h
  obtain ⟨piece, pieces, hsplit, _⟩ :=
    splitRuns_pieces isWhiteSpace (toLowerCase query) false
  unfold queryWords splitWhitespace at h
  rw [hsplit] at h
  exact absurd h (by simp)

/-- C17, evaluated at the failing inputs: for each of the questions `(`, `[`, `*` and `\`,
which pass validation, the search over a non-empty store raises a `SyntaxError` and the
handler answers with status 500 instead of an answer. -/
theorem special_token_throws :
    ([ofString "(", ofString "[", ofString "*", ofString "\\"].all
      (fun question => decide (question ≠ []))) = true ∧
    [ofString "(", ofString "[", ofString "*", ofString "\\"].map
        (fun question => searchDocuments asciiToLowerCase question storeDoc1) =
      [.error .syntaxError, .error .syntaxError, .error .syntaxError,
        .error .syntaxError] ∧
    [ofString "(", ofString "[", ofString "*", ofString "\\"].map
        (fun question => handler asciiToLowerCase (ofString "now") storeDoc1
          ⟨ofString "POST", some (.string question)⟩) =
      [some ⟨500, .error (ofString "Failed to process query")⟩,
        some ⟨500, .error (ofString "Failed to process query")⟩,
        some ⟨500, .error (ofString "Failed to process query")⟩,
        some ⟨500, .error (ofString "Failed to process query")⟩] := by
  decide

/-- C18: with the method POST, a question that is a non-empty string against the empty
store is answered with status 400 and the error `No documents uploaded. Please upload
documents first.`; a question that is missing, the empty string or no string is answered
with status 400 and the error `Question is required`, whatever the store holds, the empty
store included. -/
theorem query_validation (toLowerCase : JSString → JSString) (now : JSString) :
    (∀ question : JSString, question ≠ [] →
      handler toLowerCase now [] ⟨ofString "POST", some (.string question)⟩ =
        some ⟨400,
          .error (ofString "No documents uploaded. Please upload documents first.")⟩) ∧
    (∀ (documents : List Document) (question : JSValue),
      (question = .undefined ∨ question = .string [] ∨ question.isString = false) →
      handler toLowerCase now documents ⟨ofString "POST", some question⟩ =
        some ⟨400, .error (ofString "Question is required")⟩) := by
  constructor
  · intro question hq
    have hempty : question.isEmpty = false := by
      cases question with
      | nil => exact absurd rfl hq
      | cons c cs => rfl
    unfold handler
    simp [JSValue.truthy, JSValue.isString, hempty]
  · intro documents question hq
    have hcond : (!question.truthy || !question.isString) = true := by
      rcases hq with h | h | h
      · subst h
        rfl
      · subst h
        rfl
      · rw [h]
        simp
    unfold handler
    simp only [ne_eq, not_true_eq_false, if_false, hcond, if_true]

/-- C18 at scenario A, the question `what is this` against the empty store, and at a body
without question against the empty store. -/
theorem query_validation_witness :
    ofString "what is this" ≠ [] ∧
    handler asciiToLowerCase (ofString "now") []
        ⟨ofString "POST", some (.string (ofString "what is this"))⟩ =
      some ⟨400, .error (ofString "No documents uploaded. Please upload documents first.")⟩ ∧
    handler asciiToLowerCase (ofString "now") [] ⟨ofString "POST", some .undefined⟩ =
      some ⟨400, .error (ofString "Question is required")⟩ :=
  ⟨by decide,
    (query_validation asciiToLowerCase (ofString "now")).1 (ofString "what is this")
      (by decide),
    (query_validation asciiToLowerCase (ofString "now")).2 [] .undefined (Or.inl rfl)⟩

/-! ## Deleting a document: auxiliary facts -/

theorem findIndexFrom_cases (p : Document → Bool) :
    ∀ (documents : List Document) (index : Nat),
      (findIndexFrom p documents index = -1 ∧ ∀ doc ∈ documents, p doc = false) ∨
      (∃ before found after, documents = before ++ found :: after ∧ p found = true ∧
        (∀ doc ∈ before, p doc = false) ∧
        findIndexFrom p documents index = ((index + before.length : Nat) : Int)) := by
  intro documents
  induction documents with
  | nil =>
    intro index
    left
    exact ⟨rfl, by simp⟩
  | cons doc docs ih =>
    intro index
    unfold findIndexFrom
    by_cases hp : p doc = true
    · right
      refine ⟨[], doc, docs, rfl, hp, by simp, ?_⟩
      rw [if_pos hp]
      simp
    · have hp' : p doc = false := by simpa using hp
      rw [if_neg hp]
      rcases ih (index + 1) with ⟨hnone, hall⟩ | ⟨before, found, after, hsplit, hfound,
        hbefore, hindex⟩
      · left
        refine ⟨hnone, ?_⟩
        intro x hx
        rw [List.mem_cons] at hx
        rcases hx with hx | hx
        · rw [hx]
          exact hp'
        · exact hall x hx
      · right
        refine ⟨doc :: before, found, after, by rw [hsplit]; rfl, hfound, ?_, ?_⟩
        · intro x hx
          rw [List.mem_cons] at hx
          rcases hx with hx | hx
          · rw [hx]
            exact hp'
          · exact hbefore x hx
        · rw [hindex, List.length_cons]
          congr 1
          omega

/-- Deleting an id that no stored document has: status 404, store unchanged. -/
theorem deleteHandler_missing (documents : List Document) (id : JSString)
    (h : ∀ doc ∈ documents, doc.id ≠ id) :
    deleteHandler documents ⟨ofString "DELETE", id⟩ =
      (⟨404, .error (ofString "Document not found")⟩, documents) := by
  have hindex : findIndex (fun doc => decide (doc.id = id)) documents = -1 := by
    unfold findIndex
    rcases findIndexFrom_cases (fun doc => decide (doc.id = id)) documents 0 with
      ⟨hnone, _⟩ | ⟨before, found, after, hsplit, hfound, _, _⟩
    · exact hnone
    · have hmem : found ∈ documents := by
        rw [hsplit]
        simp
      have := h found hmem
      simp only [decide_eq_true_eq] at hfound
      exact absurd hfound this
  unfold deleteHandler
  simp only [ne_eq, not_true_eq_false, if_false, hindex, if_true]

/-- Deleting an id that some stored document has: the first document with that id is
removed and reported, the others stay in place. -/
theorem deleteHandler_found (documents : List Document) (id : JSString)
    (h : ∃ doc ∈ documents, doc.id = id) :
    ∃ before found after, documents = before ++ found :: after ∧ found.id = id ∧
      (∀ doc ∈ before, doc.id ≠ id) ∧
      deleteHandler documents ⟨ofString "DELETE", id⟩ =
        (⟨200, .deleted (ofString "Document deleted successfully") found.id found.title⟩,
          before ++ after) := by
  rcases findIndexFrom_cases (fun doc => decide (doc.id = id)) documents 0 with
    ⟨_, hall⟩ | ⟨before, found, after, hsplit, hfound, hbefore, hindex⟩
  · obtain ⟨doc, hdoc, hid⟩ := h
    have := hall doc hdoc
    simp only [decide_eq_false_iff_not] at this
    exact absurd hid this
  · refine ⟨before, found, after, hsplit, by simpa using hfound, ?_, ?_⟩
    · intro doc hdoc
      have := hbefore doc hdoc
      simpa using this
    · have hidx : findIndex (fun doc => decide (doc.id = id)) documents =
          ((before.length : Nat) : Int) := by
        unfold findIndex
        rw [hindex, Nat.zero_add]
      have hne : ¬ ((before.length : Nat) : Int) = -1 := by omega
      have hsplice : splice documents before.length 1 = ([found], before ++ after) := by
        unfold splice
        rw [hsplit]
        simp
      unfold deleteHandler
      simp only [ne_eq, not_true_eq_false, if_false, hidx, hne, Int.toNat_ofNat, hsplice]

/-! ## Claims on deleting a document -/

/-- C19: with the method DELETE, the handler answers 404 exactly when no stored document
has the id, and then the store is unchanged; otherwise the first document with the id is
removed, its id and title are returned with status 200, the store is one shorter and the
other documents keep their order. -/
theorem delete_by_id (documents : List Document) (id : JSString) :
    ((deleteHandler documents ⟨ofString "DELETE", id⟩).1.status = 404 ↔
      ∀ doc ∈ documents, doc.id ≠ id) ∧
    ((∀ doc ∈ documents, doc.id ≠ id) →
      deleteHandler documents ⟨ofString "DELETE", id⟩ =
        (⟨404, .error (ofString "Document not found")⟩, documents)) ∧
    ((∃ doc ∈ documents, doc.id = id) →
      ∃ before found after, documents = before ++ found :: after ∧ found.id = id ∧
        (∀ doc ∈ before, doc.id ≠ id) ∧
        deleteHandler documents ⟨ofString "DELETE", id⟩ =
          (⟨200, .deleted (ofString "Document deleted successfully") found.id found.title⟩,
            before ++ after) ∧
        (before ++ after).length + 1 = documents.length) := by
  refine ⟨⟨?_, ?_⟩, deleteHandler_missing documents id, ?_⟩
  · intro hstatus
    by_contra hnot
    have hex : ∃ doc ∈ documents, doc.id = id := by
      by_contra hno
      apply hnot
      intro doc hdoc hid
      exact hno ⟨doc, hdoc, hid⟩
    obtain ⟨before, found, after, _, _, _, hdel⟩ := deleteHandler_found documents id hex
    rw [hdel] at hstatus
    have h200 : (200 : Nat) = 404 := hstatus
    exact absurd h200 (by decide)
  · intro hall
    rw [deleteHandler_missing documents id hall]
  · intro hex
    obtain ⟨before, found, after, hsplit, hid, hbefore, hdel⟩ :=
      deleteHandler_found documents id hex
    refine ⟨before, found, after, hsplit, hid, hbefore, hdel, ?_⟩
    rw [hsplit]
    simp
    omega

/-- C19 at a store of four documents: deleting `D2` removes the second document, deleting
`D9` answers 404. -/
theorem delete_by_id_witness :
    (∃ doc ∈ storeFirstWithoutPassage, doc.id = ofString "D2") ∧
    (∀ doc ∈ storeFirstWithoutPassage, doc.id ≠ ofString "D9") ∧
    deleteHandler storeFirstWithoutPassage ⟨ofString "DELETE", ofString "D9"⟩ =
      (⟨404, .error (ofString "Document not found")⟩, storeFirstWithoutPassage) ∧
    ∃ before found after, storeFirstWithoutPassage = before ++ found :: after ∧
      found.id = ofString "D2" ∧ (∀ doc ∈ before, doc.id ≠ ofString "D2") ∧
      deleteHandler storeFirstWithoutPassage ⟨ofString "DELETE", ofString "D2"⟩ =
        (⟨200, .deleted (ofString "Document deleted successfully") found.id found.title⟩,
          before ++ after) ∧
      (before ++ after).length + 1 = storeFirstWithoutPassage.length :=
  ⟨by decide, by decide,
    (delete_by_id storeFirstWithoutPassage (ofString "D9")).2.1 (by decide),
    (delete_by_id storeFirstWithoutPassage (ofString "D2")).2.2 (by decide)⟩

/-- The documents of a returned ranked list are stored documents. -/
theorem searchDocuments_documents (toLowerCase : JSString → JSString) (query : JSString)
    (documents : List Document) (results : List ScoredDocument)
    (h : searchDocuments toLowerCase query documents = .ok results) :
    ∀ r ∈ results, r.document ∈ documents := by
  intro r hr
  unfold searchDocuments at h
  cases hitems : scoredDocuments toLowerCase (queryWords toLowerCase query) documents with
  | error e => simp [hitems] at h
  | ok items =>
    simp only [hitems, Except.ok.injEq] at h
    rw [← h] at hr
    have hspec := scoredDocuments_ok toLowerCase _ documents items hitems
    obtain ⟨doc, hdoc, hR⟩ := exists_document_of_mem hspec (mem_rank hr).1
    rw [hR.1]
    exact hdoc

/-! ## Occurrences of a token in distinct sentences: auxiliary facts -/

theorem not_syntaxCharacter_of_lowerAlnum (c : Nat) (h : isLowerAlnumUnit c = true) :
    isSyntaxCharacter c = false := by
  unfold isLowerAlnumUnit at h
  simp only [Bool.or_eq_true, Bool.and_eq_true, decide_eq_true_eq] at h
  have hrange : (97 ≤ c ∧ c ≤ 122) ∨ (48 ≤ c ∧ c ≤ 57) := h
  have hne : ∀ k : Nat, (k < 48 ∨ 122 < k ∨ (57 < k ∧ k < 97)) → (c == k) = false := by
    intro k hk
    rw [beq_eq_false_iff_ne]
    omega
  unfold isSyntaxCharacter
  rw [hne 94 (by omega), hne 36 (by omega), hne 92 (by omega), hne 46 (by omega),
    hne 42 (by omega), hne 43 (by omega), hne 63 (by omega), hne 40 (by omega),
    hne 41 (by omega), hne 91 (by omega), hne 93 (by omega), hne 123 (by omega),
    hne 125 (by omega), hne 124 (by omega)]
  rfl

theorem isPlain_of_isLowerAlnum {word : JSString} (h : isLowerAlnum word = true) :
    isPlain word = true := by
  unfold isLowerAlnum at h
  unfold isPlain
  rw [List.all_eq_true] at h ⊢
  intro c hc
  rw [not_syntaxCharacter_of_lowerAlnum c (h c hc)]
  rfl

theorem hasOccurrences_prepend (word front : JSString) :
    ∀ (n : Nat) (s : JSString), HasOccurrences word n s → HasOccurrences word n (front ++ s) := by
  intro n s h
  cases n with
  | zero => trivial
  | succ n =>
    obtain ⟨gap, rest, hs, hrest⟩ := h
    exact ⟨front ++ gap, rest, by rw [hs]; simp, hrest⟩

/-- The scan from the left counts at least as many occurrences as any family of
occurrences without overlap. -/
theorem le_countOccurrences (word : JSString) (hne : word ≠ []) :
    ∀ (s : JSString) (skip n : Nat),
      HasOccurrences word n (s.drop skip) → n ≤ countOccurrences word skip s := by
  intro s
  induction s with
  | nil =>
    intro skip n h
    cases n with
    | zero => exact Nat.zero_le _
    | succ n =>
      obtain ⟨gap, rest, hs, _⟩ := h
      rw [List.drop_nil] at hs
      have hlen := congrArg List.length hs
      simp only [List.length_nil, List.length_append] at hlen
      have : 0 < word.length := List.length_pos.mpr hne
      omega
  | cons c cs ih =>
    intro skip n h
    cases skip with
    | succ k =>
      rw [List.drop_succ_cons] at h
      unfold countOccurrences
      exact ih k n h
    | zero =>
      rw [List.drop_zero] at h
      cases n with
      | zero => exact Nat.zero_le _
      | succ n =>
        obtain ⟨gap, rest, hs, hrest⟩ := h
        have hpos : 0 < word.length := List.length_pos.mpr hne
        unfold countOccurrences
        by_cases hstart : startsWith (c :: cs) word = true
        · rw [if_pos hstart]
          have hdrop : cs.drop (word.length - 1) =
              (gap ++ word).drop word.length ++ rest := by
            have h1 : cs.drop (word.length - 1) = (c :: cs).drop word.length := by
              have : word.length = (word.length - 1) + 1 := by omega
              rw [this, List.drop_succ_cons]
              simp
            rw [h1, hs, List.drop_append_of_le_length (by simp)]
          have := ih (word.length - 1) n (by
            rw [hdrop]
            exact hasOccurrences_prepend word _ n rest hrest)
          omega
        · rw [if_neg hstart]
          cases gap with
          | nil =>
            exfalso
            apply hstart
            rw [startsWith_iff, hs]
            simp
          | cons g gap' =>
            simp only [List.cons_append, List.cons.injEq] at hs
            exact ih 0 (n + 1) (by
              rw [List.drop_zero]
              exact ⟨gap', rest, hs.2, hrest⟩)

theorem similarText_refl (x : JSString) : SimilarText x x :=
  List.forall₂_same.mpr (fun _ _ => Or.inl rfl)

theorem similarText_trans {x y z : JSString} (hxy : SimilarText x y) (hyz : SimilarText y z) :
    SimilarText x z := by
  unfold SimilarText at *
  induction hxy generalizing z with
  | nil =>
    cases hyz
    exact List.Forall₂.nil
  | cons hab _ ih =>
    cases hyz with
    | cons hbc hrest =>
      refine List.Forall₂.cons ?_ (ih hrest)
      rcases hab with hab | hab
      · rw [hab]
        exact hbc
      · rcases hbc with hbc | hbc
        · rw [← hbc]
          exact Or.inr hab
        · exact Or.inr ⟨hab.1, hbc.2⟩

theorem similarText_append {a b c d : JSString} (hab : SimilarText a b)
    (hcd : SimilarText c d) : SimilarText (a ++ c) (b ++ d) :=
  List.rel_append hab hcd

/-- A string similar to a token of lower-case letters and digits is that token. -/
theorem eq_of_similarText {word : JSString} (hword : isLowerAlnum word = true) :
    ∀ x : JSString, SimilarText x word → x = word := by
  induction word with
  | nil =>
    intro x h
    cases h
    rfl
  | cons w ws ih =>
    intro x h
    unfold isLowerAlnum at hword ih
    simp only [List.all_cons, Bool.and_eq_true] at hword
    cases h with
    | cons hhead htail =>
      rcases hhead with hhead | hhead
      · rw [hhead, ih hword.2 _ htail]
      · rw [hword.1] at hhead
        exact absurd hhead.2 (by decide)

/-- Occurrences of a token of lower-case letters and digits carry over to a similar
string. -/
theorem hasOccurrences_of_similarText {word : JSString} (hword : isLowerAlnum word = true) :
    ∀ (n : Nat) (x y : JSString), SimilarText x y → HasOccurrences word n y →
      HasOccurrences word n x := by
  intro n
  induction n with
  | zero =>
    intro x y _ _
    trivial
  | succ n ih =>
    intro x y hxy hocc
    obtain ⟨gap, rest, hy, hrest⟩ := hocc
    rw [hy] at hxy
    have hfront : SimilarText (x.take (gap ++ word).length) (gap ++ word) :=
      List.forall₂_take_append x (gap ++ word) rest hxy
    have hback : SimilarText (x.drop (gap ++ word).length) rest :=
      List.forall₂_drop_append x (gap ++ word) rest hxy
    have hword' : SimilarText ((x.take (gap ++ word).length).drop gap.length) word :=
      List.forall₂_drop_append _ gap word hfront
    have heq := eq_of_similarText hword _ hword'
    have hsplit : x.take (gap ++ word).length =
        (x.take (gap ++ word).length).take gap.length ++ word := by
      have h := List.take_append_drop gap.length (x.take (gap ++ word).length)
      rw [heq] at h
      exact h.symm
    exact ⟨(x.take (gap ++ word).length).take gap.length, x.drop (gap ++ word).length,
      (List.take_append_drop (gap ++ word).length x).symm.trans
        (congrArg (fun l => l ++ x.drop (gap ++ word).length) hsplit),
      ih _ rest hback hrest⟩

theorem lower_nil (toLowerCase : JSString → JSString)
    (hlower : ∀ a b, SimilarText (toLowerCase (a ++ b)) (toLowerCase a ++ toLowerCase b)) :
    toLowerCase [] = [] := by
  have h := (hlower [] []).length_eq
  rw [List.append_nil, List.length_append] at h
  exact List.length_eq_zero.mp (by omega)

/-- Occurrences in chosen pieces of a string, given where the first piece lies. -/
theorem occurrences_of_pieces (toLowerCase : JSString → JSString)
    (hlower : ∀ a b, SimilarText (toLowerCase (a ++ b)) (toLowerCase a ++ toLowerCase b))
    (word : JSString) (hword : isLowerAlnum word = true)
    (front piece tail : JSString) (pieces : List JSString)
    (htail : ∀ chosen : List JSString, List.Sublist chosen pieces →
      (∀ x ∈ chosen, word <:+: toLowerCase x) →
      HasOccurrences word chosen.length (toLowerCase tail)) :
    ∀ chosen : List JSString, List.Sublist chosen (piece :: pieces) →
      (∀ x ∈ chosen, word <:+: toLowerCase x) →
      HasOccurrences word chosen.length (toLowerCase (front ++ piece ++ tail)) := by
  intro chosen hsub hall
  have hsimilar : SimilarText (toLowerCase (front ++ piece ++ tail))
      (toLowerCase front ++ toLowerCase piece ++ toLowerCase tail) :=
    similarText_trans (hlower (front ++ piece) tail)
      (similarText_append (hlower front piece) (similarText_refl _))
  apply hasOccurrences_of_similarText hword _ _ _ hsimilar
  rcases List.sublist_cons_iff.mp hsub with hrest | ⟨others, hchosen, hothers⟩
  · exact hasOccurrences_prepend word _ _ _ (htail chosen hrest hall)
  · subst hchosen
    obtain ⟨before, after, hpiece⟩ := hall piece (List.mem_cons_self _ _)
    have hrest := htail others hothers (fun x hx => hall x (List.mem_cons_of_mem _ hx))
    refine ⟨toLowerCase front ++ before, after ++ toLowerCase tail, ?_,
      hasOccurrences_prepend word _ _ _ hrest⟩
    rw [← hpiece]
    simp

/-- Where the pieces of a split lie: the first piece behind `front`, which is empty
unless a separator run is being skipped, and the other pieces in `tail`. -/
theorem splitRuns_occurrences (toLowerCase : JSString → JSString)
    (hlower : ∀ a b, SimilarText (toLowerCase (a ++ b)) (toLowerCase a ++ toLowerCase b))
    (word : JSString) (hword : isLowerAlnum word = true) (isSep : CodeUnit → Bool)
    (s : JSString) :
    ∀ inRun : Bool, ∃ piece pieces front tail,
      splitRuns isSep s inRun = piece :: pieces ∧ s = front ++ piece ++ tail ∧
      (inRun = false → front = []) ∧
      ∀ chosen : List JSString, List.Sublist chosen pieces →
        (∀ x ∈ chosen, word <:+: toLowerCase x) →
        HasOccurrences word chosen.length (toLowerCase tail) := by
  induction s with
  | nil =>
    intro inRun
    refine ⟨[], [], [], [], rfl, rfl, fun _ => rfl, ?_⟩
    intro chosen hsub _
    rw [List.sublist_nil] at hsub
    rw [hsub]
    trivial
  | cons c cs ih =>
    intro inRun
    unfold splitRuns
    by_cases hc : isSep c = true
    · obtain ⟨piece, pieces, front, tail, hsplit, hcs, _, htail⟩ := ih true
      rw [if_pos hc]
      cases inRun with
      | true =>
        rw [if_pos rfl, hsplit]
        exact ⟨piece, pieces, c :: front, tail, rfl, by rw [hcs]; rfl,
          fun hb => absurd hb (by decide), htail⟩
      | false =>
        rw [if_neg (by decide), hsplit]
        refine ⟨[], piece :: pieces, [], c :: cs, rfl, rfl, fun _ => rfl, ?_⟩
        intro chosen hsub hall
        have hwhole := occurrences_of_pieces toLowerCase hlower word hword front piece tail
          pieces htail chosen hsub hall
        rw [← hcs] at hwhole
        have hcons : c :: cs = [c] ++ cs := rfl
        rw [hcons]
        exact hasOccurrences_of_similarText hword _ _ _ (hlower [c] cs)
          (hasOccurrences_prepend word _ _ _ hwhole)
    · obtain ⟨piece, pieces, front, tail, hsplit, hcs, hfront, htail⟩ := ih false
      rw [if_neg hc, hsplit]
      refine ⟨c :: piece, pieces, [], tail, rfl, ?_, fun _ => rfl, htail⟩
      rw [hcs, hfront rfl]
      rfl

/-- Chosen sentences that contain the token give as many occurrences in the content. -/
theorem sentences_occurrences (toLowerCase : JSString → JSString)
    (hlower : ∀ a b, SimilarText (toLowerCase (a ++ b)) (toLowerCase a ++ toLowerCase b))
    (word : JSString) (hword : isLowerAlnum word = true) (content : JSString)
    (chosen : List JSString)
    (hsub : List.Sublist chosen (splitSentences content))
    (hall : ∀ x ∈ chosen, word <:+: toLowerCase x) :
    HasOccurrences word chosen.length (toLowerCase content) := by
  obtain ⟨piece, pieces, front, tail, hsplit, hcontent, _, htail⟩ :=
    splitRuns_occurrences toLowerCase hlower word hword isSentenceDelimiter content false
  unfold splitSentences at hsub
  rw [hsplit] at hsub
  have := occurrences_of_pieces toLowerCase hlower word hword front piece tail pieces htail
    chosen hsub hall
  rw [← hcontent] at this
  exact this

/-- The sum of the occurrence counts is at least the number of chosen sentences, each of
which contains some token. -/
theorem length_le_sum_counts (toLowerCase : JSString → JSString)
    (hlower : ∀ a b, SimilarText (toLowerCase (a ++ b)) (toLowerCase a ++ toLowerCase b))
    (hfixed : ∀ word, isLowerAlnum word = true → toLowerCase word = word)
    (content : JSString) :
    ∀ (words : List JSString) (chosen : List JSString),
      (∀ word ∈ words, word ≠ [] ∧ isLowerAlnum word = true) →
      List.Sublist chosen (splitSentences content) →
      (∀ x ∈ chosen, isRelevant toLowerCase words x = true) →
      chosen.length ≤
        (words.map (fun word => countOccurrences word 0 (toLowerCase content))).sum := by
  intro words
  induction words with
  | nil =>
    intro chosen _ _ hall
    cases chosen with
    | nil => exact Nat.zero_le _
    | cons x xs =>
      have := hall x (List.mem_cons_self _ _)
      simp [isRelevant] at this
  | cons w ws ih =>
    intro chosen hwords hsub hall
    have hw := hwords w (List.mem_cons_self _ _)
    have hlen := List.length_eq_length_filter_add (l := chosen)
      (fun x => includes (toLowerCase x) (toLowerCase w))
    have hfirst : (chosen.filter (fun x => includes (toLowerCase x) (toLowerCase w))).length ≤
        countOccurrences w 0 (toLowerCase content) := by
      apply le_countOccurrences w hw.1
      rw [List.drop_zero]
      apply sentences_occurrences toLowerCase hlower w hw.2 content _
        ((List.filter_sublist _).trans hsub)
      intro x hx
      rw [List.mem_filter] at hx
      have := (includes_iff _ _).mp hx.2
      rw [hfixed w hw.2] at this
      exact this
    have hothers : (chosen.filter
        (fun x => !includes (toLowerCase x) (toLowerCase w))).length ≤
        (ws.map (fun word => countOccurrences word 0 (toLowerCase content))).sum := by
      apply ih _ (fun x hx => hwords x (List.mem_cons_of_mem _ hx))
        ((List.filter_sublist _).trans hsub)
      intro x hx
      rw [List.mem_filter] at hx
      have hrel := hall x hx.1
      unfold isRelevant at hrel ⊢
      rw [List.any_cons] at hrel
      have hnot : includes (toLowerCase x) (toLowerCase w) = false := by simpa using hx.2
      rw [hnot, Bool.false_or] at hrel
      exact hrel
    rw [List.map_cons, List.sum_cons]
    omega

theorem asciiToLowerCase_similar (a b : JSString) :
    SimilarText (asciiToLowerCase (a ++ b)) (asciiToLowerCase a ++ asciiToLowerCase b) := by
  unfold asciiToLowerCase
  rw [List.map_append]
  exact similarText_refl _

theorem not_upper_of_lowerAlnum (c : Nat) (h : isLowerAlnumUnit c = true) :
    ¬ (65 ≤ c ∧ c ≤ 90) := by
  unfold isLowerAlnumUnit at h
  simp only [Bool.or_eq_true, Bool.and_eq_true, decide_eq_true_eq] at h
  have hrange : (97 ≤ c ∧ c ≤ 122) ∨ (48 ≤ c ∧ c ≤ 57) := h
  omega

theorem asciiToLowerCase_fixed (word : JSString) (h : isLowerAlnum word = true) :
    asciiToLowerCase word = word := by
  unfold isLowerAlnum at h
  rw [List.all_eq_true] at h
  unfold asciiToLowerCase
  have hmap : ∀ c ∈ word, (fun c : CodeUnit => if 65 ≤ c ∧ c ≤ 90 then c + 32 else c) c =
      id c := by
    intro c hc
    simp only [id]
    exact if_neg (not_upper_of_lowerAlnum c (h c hc))
  rw [List.map_congr_left hmap, List.map_id]

/-- The score of a document for tokens of lower-case letters and digits. -/
theorem score_lowerAlnum (toLowerCase : JSString → JSString)
    (hlower : ∀ a b, SimilarText (toLowerCase (a ++ b)) (toLowerCase a ++ toLowerCase b))
    (hfixed : ∀ word, isLowerAlnum word = true → toLowerCase word = word)
    (words : List JSString) (hwords : ∀ word ∈ words, word ≠ [] ∧ isLowerAlnum word = true)
    (doc : Document) :
    score toLowerCase words doc = .ok (specScore toLowerCase words doc) ∧
    (relevantPassages toLowerCase words doc).length ≤ specScore toLowerCase words doc := by
  have hplain : ∀ word ∈ words, isPlain word = true ∧ word ≠ [] :=
    fun word hword => ⟨isPlain_of_isLowerAlnum (hwords word hword).2, (hwords word hword).1⟩
  refine ⟨score_plain toLowerCase words doc hplain, ?_⟩
  have hchosen := length_le_sum_counts toLowerCase hlower hfixed doc.content words
    (((splitSentences doc.content).filter (isRelevant toLowerCase words)).take 3) hwords
    ((List.take_sublist _ _).trans (List.filter_sublist _))
    (fun x hx => by
      have := (List.take_sublist _ _).subset hx
      rw [List.mem_filter] at this
      exact this.2)
  have hlen : (relevantPassages toLowerCase words doc).length ≤
      (((splitSentences doc.content).filter (isRelevant toLowerCase words)).take 3).length := by
    unfold relevantPassages
    refine Nat.le_trans (List.length_filter_le _ _) ?_
    rw [List.length_map]
  unfold specScore
  exact Nat.le_trans hlen hchosen

/-! ## Claim on scores and passages -/

/-- C21: let lower-casing leave tokens of lower-case letters and digits unchanged and
act piece by piece, up to code units that are neither lower-case letters nor digits.
Then for every sequence of non-empty tokens of lower-case letters and digits and every
document the score is computed and is at least the number of elements of
`relevantPassages`, so a document with a passage has score > 0; and `scoredDocuments`
returns a list in which every item has a score at least the number of its passages and
every item with a passage passes the filter `item.score > 0`. -/
theorem score_ge_passages (toLowerCase : JSString → JSString)
    (hlower : ∀ a b, SimilarText (toLowerCase (a ++ b)) (toLowerCase a ++ toLowerCase b))
    (hfixed : ∀ word, isLowerAlnum word = true → toLowerCase word = word)
    (words : List JSString) (hwords : ∀ word ∈ words, word ≠ [] ∧ isLowerAlnum word = true) :
    (∀ doc : Document, ∃ total, score toLowerCase words doc = .ok total ∧
      (relevantPassages toLowerCase words doc).length ≤ total ∧
      (relevantPassages toLowerCase words doc ≠ [] → 0 < total)) ∧
    (∀ documents : List Document, ∃ items,
      scoredDocuments toLowerCase words documents = .ok items ∧
      ∀ item ∈ items, item.relevantPassages.length ≤ item.score ∧
        (item.relevantPassages ≠ [] →
          item ∈ items.filter (fun item => decide (item.score > 0)))) := by
  have hdoc := score_lowerAlnum toLowerCase hlower hfixed words hwords
  constructor
  · intro doc
    refine ⟨specScore toLowerCase words doc, (hdoc doc).1, (hdoc doc).2, ?_⟩
    intro hne
    have := List.length_pos.mpr hne
    have := (hdoc doc).2
    omega
  · intro documents
    have hitems := scoredDocuments_of_scores toLowerCase words
      (fun doc => specScore toLowerCase words doc) documents (fun doc _ => (hdoc doc).1)
    refine ⟨_, hitems, ?_⟩
    intro item hitem
    have hmem := hitem
    rw [List.mem_map] at hmem
    obtain ⟨doc, _, hmk⟩ := hmem
    have hlen : item.relevantPassages.length ≤ item.score := by
      rw [← hmk]
      exact (hdoc doc).2
    refine ⟨hlen, ?_⟩
    intro hne
    rw [List.mem_filter]
    refine ⟨hitem, ?_⟩
    have := List.length_pos.mpr hne
    simp only [gt_iff_lt, decide_eq_true_eq]
    omega

/-- C21 at the ASCII lower-casing, the tokens `cat` and `dog` and a document with three
passages and score 4. -/
theorem score_ge_passages_witness :
    (∀ a b, SimilarText (asciiToLowerCase (a ++ b))
      (asciiToLowerCase a ++ asciiToLowerCase b)) ∧
    (∀ word, isLowerAlnum word = true → asciiToLowerCase word = word) ∧
    (∀ word ∈ [ofString "cat", ofString "dog"], word ≠ [] ∧ isLowerAlnum word = true) ∧
    score asciiToLowerCase [ofString "cat", ofString "dog"] documentThreeCats = .ok 4 ∧
    (relevantPassages asciiToLowerCase [ofString "cat", ofString "dog"]
      documentThreeCats).length = 3 ∧
    ∃ total, score asciiToLowerCase [ofString "cat", ofString "dog"] documentThreeCats =
        .ok total ∧
      (relevantPassages asciiToLowerCase [ofString "cat", ofString "dog"]
        documentThreeCats).length ≤ total ∧
      (relevantPassages asciiToLowerCase [ofString "cat", ofString "dog"]
        documentThreeCats ≠ [] → 0 < total) :=
  ⟨asciiToLowerCase_similar, asciiToLowerCase_fixed, by decide, by decide, by decide,
    (score_ge_passages asciiToLowerCase asciiToLowerCase_similar asciiToLowerCase_fixed
      [ofString "cat", ofString "dog"] (by decide)).1 documentThreeCats⟩

/-! ## The search over an arbitrary engine: auxiliary facts -/

theorem scoreLoop_eq_with (content : JSString) :
    ∀ (words : List JSString) (start : Nat),
      scoreLoop content words start = scoreLoopWith countMatches content words start := by
  intro words
  induction words with
  | nil =>
    intro start
    rfl
  | cons w ws ih =>
    intro start
    unfold scoreLoop scoreLoopWith
    cases countMatches w content with
    | error e => rfl
    | ok n => exact ih _

theorem scoredDocuments_eq_with (toLowerCase : JSString → JSString) (words : List JSString) :
    ∀ documents : List Document,
      scoredDocuments toLowerCase words documents =
        scoredDocumentsWith countMatches toLowerCase words documents := by
  intro documents
  induction documents with
  | nil => rfl
  | cons doc docs ih =>
    unfold scoredDocuments scoredDocumentsWith scoreDocument scoreDocumentWith score scoreWith
    rw [scoreLoop_eq_with, ih]

/-- The search embedded above is the search over the engine `countMatches`. -/
theorem searchDocuments_eq_with (toLowerCase : JSString → JSString) (query : JSString)
    (documents : List Document) :
    searchDocuments toLowerCase query documents =
      searchDocumentsWith countMatches toLowerCase query documents := by
  unfold searchDocuments searchDocumentsWith
  rw [scoredDocuments_eq_with]

/-- The handler embedded above is the handler over the engine `countMatches`. -/
theorem handler_eq_with (toLowerCase : JSString → JSString) (now : JSString)
    (documents : List Document) (req : QueryRequest) :
    handler toLowerCase now documents req =
      handlerWith countMatches toLowerCase now documents req := by
  unfold handler handlerWith
  simp only [searchDocuments_eq_with]

theorem scoredDocumentsWith_ok (count : MatchCounter) (toLowerCase : JSString → JSString)
    (words : List JSString) :
    ∀ (documents : List Document) (items : List ScoredDocument),
      scoredDocumentsWith count toLowerCase words documents = .ok items →
      List.Forall₂ (fun doc item => item.document = doc ∧
        scoreWith count toLowerCase words doc = .ok item.score ∧
        item.relevantPassages = relevantPassages toLowerCase words doc) documents items := by
  intro documents
  induction documents with
  | nil =>
    intro items h
    simp only [scoredDocumentsWith, Except.ok.injEq] at h
    subst h
    exact List.Forall₂.nil
  | cons doc docs ih =>
    intro items h
    unfold scoredDocumentsWith scoreDocumentWith at h
    cases hs : scoreWith count toLowerCase words doc with
    | error e => simp [hs] at h
    | ok s =>
      cases hrest : scoredDocumentsWith count toLowerCase words docs with
      | error e => simp [hs, hrest] at h
      | ok rest =>
        simp only [hs, hrest, Except.ok.injEq] at h
        subst h
        exact List.Forall₂.cons ⟨rfl, hs, rfl⟩ (ih rest hrest)

theorem scoredDocumentsWith_of_scores (count : MatchCounter)
    (toLowerCase : JSString → JSString) (words : List JSString) (value : Document → Nat) :
    ∀ documents : List Document,
      (∀ doc ∈ documents, scoreWith count toLowerCase words doc = .ok (value doc)) →
      scoredDocumentsWith count toLowerCase words documents =
        .ok (documents.map
          (fun doc => ⟨doc, value doc, relevantPassages toLowerCase words doc⟩)) := by
  intro documents
  induction documents with
  | nil =>
    intro _
    rfl
  | cons doc docs ih =>
    intro h
    unfold scoredDocumentsWith scoreDocumentWith
    rw [h doc (List.mem_cons_self _ _), ih (fun d hd => h d (List.mem_cons_of_mem _ hd))]
    rfl

theorem scoreLoopWith_total (count : MatchCounter) (content : JSString) :
    ∀ (words : List JSString) (start : Nat),
      (∀ word ∈ words, (count word content).isOk = true) →
      ∃ total, scoreLoopWith count content words start = .ok total := by
  intro words
  induction words with
  | nil =>
    intro start _
    exact ⟨start, rfl⟩
  | cons w ws ih =>
    intro start h
    unfold scoreLoopWith
    cases hc : count w content with
    | error e =>
      have := h w (List.mem_cons_self _ _)
      rw [hc] at this
      exact absurd this (by simp [Except.isOk, Except.toBool])
    | ok n => exact ih _ (fun x hx => h x (List.mem_cons_of_mem _ hx))

/-- The search returns whenever the engine returns a count for every query word on every
document. -/
theorem searchDocumentsWith_total (count : MatchCounter) (toLowerCase : JSString → JSString)
    (query : JSString) (documents : List Document)
    (h : ∀ doc ∈ documents, ∀ word ∈ queryWords toLowerCase query,
      (count word (toLowerCase doc.content)).isOk = true) :
    ∃ results, searchDocumentsWith count toLowerCase query documents = .ok results := by
  have hall : ∀ docs : List Document, (∀ doc ∈ docs, doc ∈ documents) → ∃ items,
      scoredDocumentsWith count toLowerCase (queryWords toLowerCase query) docs =
        .ok items := by
    intro docs
    induction docs with
    | nil =>
      intro _
      exact ⟨[], rfl⟩
    | cons d ds ih =>
      intro hsub
      obtain ⟨rest, hrest⟩ := ih (fun x hx => hsub x (List.mem_cons_of_mem _ hx))
      obtain ⟨total, htotal⟩ := scoreLoopWith_total count (toLowerCase d.content) _ 0
        (h d (hsub d (List.mem_cons_self _ _)))
      refine ⟨⟨d, total, relevantPassages toLowerCase (queryWords toLowerCase query) d⟩
        :: rest, ?_⟩
      unfold scoredDocumentsWith scoreDocumentWith scoreWith
      rw [htotal, hrest]
  obtain ⟨items, hitems⟩ := hall documents (fun _ hx => hx)
  exact ⟨rank items, by unfold searchDocumentsWith; rw [hitems]⟩

/-- What a returned list is: the rank of the scored documents, one per stored document in
store order, each with its score and its passages. -/
theorem searchDocumentsWith_ok (count : MatchCounter) (toLowerCase : JSString → JSString)
    (query : JSString) (documents : List Document) (results : List ScoredDocument)
    (h : searchDocumentsWith count toLowerCase query documents = .ok results) :
    ∃ items, results = rank items ∧
      List.Forall₂ (fun doc item => item.document = doc ∧
        scoreWith count toLowerCase (queryWords toLowerCase query) doc = .ok item.score ∧
        item.relevantPassages =
          relevantPassages toLowerCase (queryWords toLowerCase query) doc) documents items := by
  unfold searchDocumentsWith at h
  cases hitems : scoredDocumentsWith count toLowerCase (queryWords toLowerCase query)
      documents with
  | error e => simp [hitems] at h
  | ok items =>
    simp only [hitems, Except.ok.injEq] at h
    exact ⟨items, h.symm, scoredDocumentsWith_ok count toLowerCase _ documents items hitems⟩

/-- The entries of a returned list: stored documents with their own passages. -/
theorem searchDocumentsWith_entries (count : MatchCounter) (toLowerCase : JSString → JSString)
    (query : JSString) (documents : List Document) (results : List ScoredDocument)
    (h : searchDocumentsWith count toLowerCase query documents = .ok results) :
    ∀ r ∈ results, r.document ∈ documents ∧
      r.relevantPassages =
        relevantPassages toLowerCase (queryWords toLowerCase query) r.document := by
  intro r hr
  obtain ⟨items, hrank, hspec⟩ := searchDocumentsWith_ok count toLowerCase query documents
    results h
  rw [hrank] at hr
  obtain ⟨doc, hdoc, hR⟩ := exists_document_of_mem hspec (mem_rank hr).1
  rw [hR.1]
  exact ⟨hdoc, hR.2.2⟩

theorem handlerWith_of_search (count : MatchCounter) (toLowerCase : JSString → JSString)
    (now question : JSString) (documents : List Document) (results : List ScoredDocument)
    (hstore : documents ≠ []) (hquestion : question ≠ [])
    (h : searchDocumentsWith count toLowerCase question documents = .ok results) :
    handlerWith count toLowerCase now documents ⟨ofString "POST", some (.string question)⟩ =
      some ⟨200, .answer (generateAnswer question results).text
        (generateAnswer question results).sources
        (generateAnswer question results).confidence now⟩ := by
  have hlen : ¬ documents.length = 0 := fun h0 => hstore (List.length_eq_zero.mp h0)
  have hempty : question.isEmpty = false := by
    cases question with
    | nil => exact absurd rfl hquestion
    | cons c cs => rfl
  unfold handlerWith
  simp only [ne_eq, not_true_eq_false, if_false, JSValue.truthy, JSValue.isString,
    JSValue.stringValue, hempty, Bool.not_false, Bool.not_true, Bool.or_self,
    Bool.false_eq_true, hlen, h]

/-- The chain `.filter(score > 0).sort(..).slice(0, 5)` on any list of scored documents:
the first five of the stable arrangement by non-increasing score of the positive ones. -/
theorem rank_spec (items : List ScoredDocument) :
    ∃ sorted : List ScoredDocument,
      sorted.Perm (items.filter (fun item => decide (0 < item.score))) ∧
      sorted.Pairwise (fun a b => b.score ≤ a.score) ∧
      (∀ k, sorted.filter (fun item => decide (item.score = k)) =
        (items.filter (fun item => decide (0 < item.score))).filter
          (fun item => decide (item.score = k))) ∧
      rank items = sorted.take 5 ∧
      (rank items).Pairwise (fun a b => b.score ≤ a.score) ∧
      (rank items).length ≤ 5 ∧
      ∀ r ∈ rank items, 0 < r.score := by
  have hrank : rank items =
      (sort (items.filter (fun item => decide (0 < item.score)))).take 5 := rfl
  refine ⟨sort (items.filter (fun item => decide (0 < item.score))), sort_perm _,
    sort_pairwise _, fun k => sort_stable _ k, hrank, ?_, ?_, ?_⟩
  · rw [hrank]
    exact (sort_pairwise _).sublist (List.take_sublist _ _)
  · rw [hrank, List.length_take]
    exact Nat.min_le_left _ _
  · intro r hr
    exact (mem_rank hr).2

/-! ## Claims that hold for every regular-expression engine -/

/-- C2: for every regular-expression engine, store and question.  The search returns a
list whenever the engine returns a count for every query word on every document, and a
list it returns is the first five elements of the stable arrangement by non-increasing
score of the scored documents with score > 0: `items` holds one scored document per
stored document in store order, `sorted` is a permutation of the positive ones,
non-increasing in score, in which the documents of any one score keep their store order;
the result is `sorted.take 5`, so it is non-increasing in score, has at most 5 entries
and no entry of score 0.  The same holds of `rank` on any list of scored documents, and
`searchDocuments` is the search over the engine `countMatches`. -/
theorem searchDocuments_ranking (count : MatchCounter) (toLowerCase : JSString → JSString)
    (query : JSString) (documents : List Document) :
    ((∀ doc ∈ documents, ∀ word ∈ queryWords toLowerCase query,
        (count word (toLowerCase doc.content)).isOk = true) →
      ∃ results, searchDocumentsWith count toLowerCase query documents = .ok results) ∧
    (∀ results : List ScoredDocument,
      searchDocumentsWith count toLowerCase query documents = .ok results →
      ∃ items sorted : List ScoredDocument,
        List.Forall₂ (fun doc item => item.document = doc ∧
          scoreWith count toLowerCase (queryWords toLowerCase query) doc = .ok item.score)
          documents items ∧
        sorted.Perm (items.filter (fun item => decide (0 < item.score))) ∧
        sorted.Pairwise (fun a b => b.score ≤ a.score) ∧
        (∀ k, sorted.filter (fun item => decide (item.score = k)) =
          (items.filter (fun item => decide (0 < item.score))).filter
            (fun item => decide (item.score = k))) ∧
        results = sorted.take 5 ∧
        results.Pairwise (fun a b => b.score ≤ a.score) ∧
        results.length ≤ 5 ∧
        ∀ r ∈ results, 0 < r.score) ∧
    (∀ items : List ScoredDocument, ∃ sorted : List ScoredDocument,
      sorted.Perm (items.filter (fun item => decide (0 < item.score))) ∧
      sorted.Pairwise (fun a b => b.score ≤ a.score) ∧
      (∀ k, sorted.filter (fun item => decide (item.score = k)) =
        (items.filter (fun item => decide (0 < item.score))).filter
          (fun item => decide (item.score = k))) ∧
      rank items = sorted.take 5 ∧
      (rank items).Pairwise (fun a b => b.score ≤ a.score) ∧
      (rank items).length ≤ 5 ∧
      ∀ r ∈ rank items, 0 < r.score) ∧
    searchDocuments toLowerCase query documents =
      searchDocumentsWith countMatches toLowerCase query documents := by
  refine ⟨searchDocumentsWith_total count toLowerCase query documents, ?_, rank_spec,
    searchDocuments_eq_with toLowerCase query documents⟩
  intro results h
  obtain ⟨items, hrank, hspec⟩ := searchDocumentsWith_ok count toLowerCase query documents
    results h
  obtain ⟨sorted, hperm, hsorted, hstable, htake, hpairwise, hlength, hpositive⟩ :=
    rank_spec items
  rw [← hrank] at htake hpairwise hlength hpositive
  exact ⟨items, sorted, hspec.imp (fun {doc item} hx => ⟨hx.1, hx.2.1⟩), hperm, hsorted,
    hstable, htake, hpairwise, hlength, hpositive⟩

/-- C2 at a concrete store and a question that ends in a question mark: four documents
scored 0, 1, 2, 1 for the question `cat?`; the ranked list holds the third document,
then the second and the fourth in store order. -/
theorem searchDocuments_ranking_witness :
    (∀ doc ∈ storeWithTie, ∀ word ∈ queryWords asciiToLowerCase (ofString "cat?"),
      (countMatchesOptional word (asciiToLowerCase doc.content)).isOk = true) ∧
    searchDocumentsWith countMatchesOptional asciiToLowerCase (ofString "cat?") storeWithTie =
      .ok rankedWithTie ∧
    searchDocuments asciiToLowerCase (ofString "cat") storeWithTie = .ok rankedWithTie ∧
    ∃ items sorted : List ScoredDocument,
      List.Forall₂ (fun doc item => item.document = doc ∧
        scoreWith countMatchesOptional asciiToLowerCase
          (queryWords asciiToLowerCase (ofString "cat?")) doc = .ok item.score)
        storeWithTie items ∧
      sorted.Perm (items.filter (fun item => decide (0 < item.score))) ∧
      sorted.Pairwise (fun a b => b.score ≤ a.score) ∧
      (∀ k, sorted.filter (fun item => decide (item.score = k)) =
        (items.filter (fun item => decide (0 < item.score))).filter
          (fun item => decide (item.score = k))) ∧
      rankedWithTie = sorted.take 5 ∧
      rankedWithTie.Pairwise (fun a b => b.score ≤ a.score) ∧
      rankedWithTie.length ≤ 5 ∧
      ∀ r ∈ rankedWithTie, 0 < r.score :=
  ⟨by decide, by decide, by decide,
    (searchDocuments_ranking countMatchesOptional asciiToLowerCase (ofString "cat?")
      storeWithTie).2.1 rankedWithTie (by decide)⟩

/-- C11: for every regular-expression engine, every non-empty store and every question
that is a non-empty string, when every document has score 0 the ranked list is empty and
the handler answers with status 200, the text `I couldn't find relevant information in
the uploaded documents to answer your question.`, no sources and confidence 0. -/
theorem query_without_match (count : MatchCounter) (toLowerCase : JSString → JSString)
    (now question : JSString) (documents : List Document) (hstore : documents ≠ [])
    (hquestion : question ≠ [])
    (hscore : ∀ doc ∈ documents,
      scoreWith count toLowerCase (queryWords toLowerCase question) doc = .ok 0) :
    searchDocumentsWith count toLowerCase question documents = .ok [] ∧
    handlerWith count toLowerCase now documents ⟨ofString "POST", some (.string question)⟩ =
      some ⟨200, .answer
        (ofString "I couldn't find relevant information in the uploaded documents to answer your question.")
        [] 0 now⟩ := by
  have hsearch : searchDocumentsWith count toLowerCase question documents = .ok [] := by
    unfold searchDocumentsWith
    rw [scoredDocumentsWith_of_scores count toLowerCase _ (fun _ => 0) documents hscore]
    simp only [Except.ok.injEq]
    apply rank_eq_nil
    intro item hitem
    rw [List.mem_map] at hitem
    obtain ⟨doc, _, rfl⟩ := hitem
    rfl
  refine ⟨hsearch, ?_⟩
  rw [handlerWith_of_search count toLowerCase now question documents [] hstore hquestion
    hsearch]
  rfl

/-- C11 at the question `xylophone?` over the one document of `storeDoc1`, and at
scenario C, the question `xylophone` through the handler over `countMatches`. -/
theorem query_without_match_witness :
    storeDoc1 ≠ [] ∧ questionXylophone ≠ [] ∧
    (∀ doc ∈ storeDoc1,
      scoreWith countMatchesOptional asciiToLowerCase
        (queryWords asciiToLowerCase questionXylophone) doc = .ok 0) ∧
    (searchDocumentsWith countMatchesOptional asciiToLowerCase questionXylophone storeDoc1 =
        .ok [] ∧
      handlerWith countMatchesOptional asciiToLowerCase (ofString "2024-01-01T00:00:00.000Z")
          storeDoc1 ⟨ofString "POST", some (.string questionXylophone)⟩ =
        some ⟨200, .answer
          (ofString "I couldn't find relevant information in the uploaded documents to answer your question.")
          [] 0 (ofString "2024-01-01T00:00:00.000Z")⟩) ∧
    handler asciiToLowerCase (ofString "2024-01-01T00:00:00.000Z") storeDoc1
        ⟨ofString "POST", some (.string (ofString "xylophone"))⟩ =
      some ⟨200, .answer
        (ofString "I couldn't find relevant information in the uploaded documents to answer your question.")
        [] 0 (ofString "2024-01-01T00:00:00.000Z")⟩ :=
  ⟨by decide, by decide, by decide,
    query_without_match countMatchesOptional asciiToLowerCase
      (ofString "2024-01-01T00:00:00.000Z") questionXylophone storeDoc1 (by decide)
      (by decide) (by decide),
    by decide⟩

/-- C13: for every ranked list whose passages are the `relevantPassages` of its documents,
as they are in every list the search returns under any engine, and in which some
document has a passage, with `chosen` the documents with a passage among the first
three: the sources are built from `chosen` in order; each chosen document's block is the
line `From "<title>":` followed on the next line by its complete first passage, and
occurs in the answer text; and the text followed by a blank line is the opening line
followed by the blocks of `chosen` in order, each followed by a blank line. -/
theorem answer_text_blocks (toLowerCase : JSString → JSString) (words : List JSString)
    (question : JSString) (results : List ScoredDocument)
    (hpassages : ∀ r ∈ results,
      r.relevantPassages = relevantPassages toLowerCase words r.document)
    (hsome : ∃ r ∈ results, hasPassage r = true) :
    (generateAnswer question results).sources =
      ((results.take 3).filter hasPassage).map
        (fun result => makeSource result (result.relevantPassages.headD [])) ∧
    (∀ r ∈ (results.take 3).filter hasPassage,
      (∃ p rest, r.relevantPassages = p :: rest ∧
        answerBlock r = ofString "From \"" ++ r.document.title ++ ofString "\":\n" ++ p) ∧
      answerBlock r <:+: (generateAnswer question results).text) ∧
    (generateAnswer question results).text ++ ofString "\n\n" =
      ofString "Based on the uploaded documents, here's what I found:\n\n" ++
        (((results.take 3).filter hasPassage).map
          (fun result => answerBlock result ++ ofString "\n\n")).flatten := by
  have hends : ∀ r ∈ results, ∀ p ∈ r.relevantPassages,
      ∃ init x, p = init ++ [x] ∧ isWhiteSpace x = false := by
    intro r hr p hp
    rw [hpassages r hr] at hp
    exact passage_ends_nonblank toLowerCase words r.document p hp
  refine ⟨generateAnswer_sources question results, ?_,
    answer_text_shape question results hsome hends⟩
  intro r hr
  refine ⟨?_, answer_text_contains question results hsome hends r hr⟩
  rw [List.mem_filter] at hr
  obtain ⟨p, rest, hp⟩ := (hasPassage_iff r).mp hr.2
  exact ⟨p, rest, hp, by simp [answerBlock, hp]⟩

/-- C13 at scenario B: the store of `Doc1` and the question `cat`.  The passage is
`The cat sat on the mat`, the text contains `From "Doc1":` and the confidence is 30. -/
theorem answer_text_blocks_witness :
    searchDocuments asciiToLowerCase (ofString "cat") storeDoc1 = .ok rankedDoc1 ∧
    (∀ r ∈ rankedDoc1, r.relevantPassages =
      relevantPassages asciiToLowerCase (queryWords asciiToLowerCase (ofString "cat"))
        r.document) ∧
    (∃ r ∈ rankedDoc1, hasPassage r = true) ∧
    (generateAnswer (ofString "cat") rankedDoc1).text ++ ofString "\n\n" =
      ofString "Based on the uploaded documents, here's what I found:\n\n" ++
        (((rankedDoc1.take 3).filter hasPassage).map
          (fun result => answerBlock result ++ ofString "\n\n")).flatten ∧
    (generateAnswer (ofString "cat") rankedDoc1).text =
      ofString "Based on the uploaded documents, here's what I found:\n\nFrom \"Doc1\":\nThe cat sat on the mat" ∧
    includes (generateAnswer (ofString "cat") rankedDoc1).text (ofString "From \"Doc1\":")
      = true ∧
    (generateAnswer (ofString "cat") rankedDoc1).confidence = 30 :=
  ⟨by decide, by decide, by decide,
    (answer_text_blocks asciiToLowerCase (queryWords asciiToLowerCase (ofString "cat"))
      (ofString "cat") rankedDoc1 (by decide) (by decide)).2.2,
    by decide, by decide, by decide⟩

/-- C20: in a store with pairwise distinct ids, after a delete of `id` answered with
status 200 the remaining store is a subsequence of the old one without any document of
that id and a further delete of `id` answers 404; and for every regular-expression engine
and every question on which the search over the remaining store returns, every ranked
document is a remaining document with another id and every source is built from such a
ranked document. -/
theorem deleted_document_not_returned (count : MatchCounter)
    (toLowerCase : JSString → JSString) (documents : List Document) (id : JSString)
    (hdistinct : (documents.map (fun doc => doc.id)).Nodup)
    (hdeleted : (deleteHandler documents ⟨ofString "DELETE", id⟩).1.status = 200) :
    List.Sublist (deleteHandler documents ⟨ofString "DELETE", id⟩).2 documents ∧
    (∀ doc ∈ (deleteHandler documents ⟨ofString "DELETE", id⟩).2, doc.id ≠ id) ∧
    deleteHandler (deleteHandler documents ⟨ofString "DELETE", id⟩).2
        ⟨ofString "DELETE", id⟩ =
      (⟨404, .error (ofString "Document not found")⟩,
        (deleteHandler documents ⟨ofString "DELETE", id⟩).2) ∧
    ∀ (question : JSString) (results : List ScoredDocument),
      searchDocumentsWith count toLowerCase question
          (deleteHandler documents ⟨ofString "DELETE", id⟩).2 = .ok results →
      (∀ r ∈ results,
        r.document ∈ (deleteHandler documents ⟨ofString "DELETE", id⟩).2 ∧
        r.document.id ≠ id) ∧
      ∀ source ∈ (generateAnswer question results).sources,
        ∃ r ∈ results,
          r.document ∈ (deleteHandler documents ⟨ofString "DELETE", id⟩).2 ∧
          r.document.id ≠ id ∧
          source.title = r.document.title ∧ source.fileType = r.document.fileType ∧
          source.relevance = r.score := by
  have hex : ∃ doc ∈ documents, doc.id = id := by
    by_contra hno
    have hall : ∀ doc ∈ documents, doc.id ≠ id := fun doc hdoc hid => hno ⟨doc, hdoc, hid⟩
    rw [deleteHandler_missing documents id hall] at hdeleted
    have h404 : (404 : Nat) = 200 := hdeleted
    exact absurd h404 (by decide)
  obtain ⟨before, found, after, hsplit, hid, hbefore, hdel⟩ :=
    deleteHandler_found documents id hex
  rw [hdel]
  simp only
  have hafter : ∀ doc ∈ after, doc.id ≠ id := by
    intro doc hdoc heq
    rw [hsplit, List.map_append, List.map_cons, List.nodup_append] at hdistinct
    have hcons := hdistinct.2.1
    rw [List.nodup_cons] at hcons
    apply hcons.1
    rw [hid, ← heq]
    exact List.mem_map_of_mem _ hdoc
  have hremaining : ∀ doc ∈ before ++ after, doc.id ≠ id := by
    intro doc hdoc
    rw [List.mem_append] at hdoc
    rcases hdoc with hdoc | hdoc
    · exact hbefore doc hdoc
    · exact hafter doc hdoc
  refine ⟨?_, hremaining, deleteHandler_missing _ id hremaining, ?_⟩
  · rw [hsplit]
    exact (List.Sublist.refl before).append (List.sublist_cons_self found after)
  · intro question results hsearch
    have hdocs : ∀ r ∈ results, r.document ∈ before ++ after := fun r hr =>
      (searchDocumentsWith_entries count toLowerCase question _ results hsearch r hr).1
    refine ⟨fun r hr => ⟨hdocs r hr, hremaining _ (hdocs r hr)⟩, ?_⟩
    intro source hsource
    rw [generateAnswer_sources, List.mem_map] at hsource
    obtain ⟨r, hr, rfl⟩ := hsource
    have hmem : r ∈ results :=
      (List.take_sublist _ _).subset ((List.filter_sublist _).subset hr)
    exact ⟨r, hmem, hdocs r hmem, hremaining _ (hdocs r hmem), rfl, rfl, rfl⟩

/-- C20 at a store of four documents: after deleting `D2` a second delete answers 404,
and the question `a cat?` ranks `D1`, `D3`, `D4` and is answered from `D3` and `D4`. -/
theorem deleted_document_not_returned_witness :
    (storeFirstWithoutPassage.map (fun doc => doc.id)).Nodup ∧
    (deleteHandler storeFirstWithoutPassage ⟨ofString "DELETE", ofString "D2"⟩).1.status
      = 200 ∧
    (deleteHandler storeFirstWithoutPassage ⟨ofString "DELETE", ofString "D2"⟩).2
      = storeAfterDelete ∧
    deleteHandler (deleteHandler storeFirstWithoutPassage
        ⟨ofString "DELETE", ofString "D2"⟩).2 ⟨ofString "DELETE", ofString "D2"⟩ =
      (⟨404, .error (ofString "Document not found")⟩,
        (deleteHandler storeFirstWithoutPassage ⟨ofString "DELETE", ofString "D2"⟩).2) ∧
    searchDocumentsWith countMatchesOptional asciiToLowerCase (ofString "a cat?")
        (deleteHandler storeFirstWithoutPassage ⟨ofString "DELETE", ofString "D2"⟩).2 =
      .ok rankedAfterDelete ∧
    (generateAnswer (ofString "a cat?") rankedAfterDelete).sources.map
      (fun source => source.title) = [ofString "D3", ofString "D4"] ∧
    ((∀ r ∈ rankedAfterDelete,
        r.document ∈ (deleteHandler storeFirstWithoutPassage
          ⟨ofString "DELETE", ofString "D2"⟩).2 ∧
        r.document.id ≠ ofString "D2") ∧
      ∀ source ∈ (generateAnswer (ofString "a cat?") rankedAfterDelete).sources,
        ∃ r ∈ rankedAfterDelete,
          r.document ∈ (deleteHandler storeFirstWithoutPassage
            ⟨ofString "DELETE", ofString "D2"⟩).2 ∧
          r.document.id ≠ ofString "D2" ∧
          source.title = r.document.title ∧ source.fileType = r.document.fileType ∧
          source.relevance = r.score) :=
  ⟨by decide, by decide, by decide,
    (deleted_document_not_returned countMatchesOptional asciiToLowerCase
      storeFirstWithoutPassage (ofString "D2") (by decide) (by decide)).2.2.1,
    by decide, by decide,
    (deleted_document_not_returned countMatchesOptional asciiToLowerCase
      storeFirstWithoutPassage (ofString "D2") (by decide) (by decide)).2.2.2
      (ofString "a cat?") rankedAfterDelete (by decide)⟩

end DocQA
